import Mathlib

/-!
Shallow embedding of the escomplex core (src/module.js and src/project.js)
and proofs about it.

Modelling conventions:
* The walker of module.js drives the analyser through the three callbacks
  createScope / popScope / processNode.  A walk is therefore modelled as a
  list of WalkEvent values; the analyser is the fold of a step function over
  that list, starting from the state module.js sets up at the top of analyse.
* JS objects mutated in place (the module report, the current function
  report, the scope stack, the clearDependencies latch) become one explicit
  state record.  The scope stack holds indices into the functions list (the
  JS code stores references; an index into report.functions identifies the
  same object).  The stack grows at the head here, where the JS array grows
  at the end; push/pop/top translate accordingly.
* JS numbers used as counters (totals, distinct counts, logical sloc,
  cyclomatic) are Nat.  The IEEE-754 values produced during finalisation
  (cyclomatic density, Halstead derivations, maintainability index) are
  modelled as real numbers, with Math.log as Real.log.  Division by zero
  yields Lean's junk value 0 instead of Infinity/NaN; no theorem below
  depends on the value of such a cell.
* Strings are processed through their character lists, because the kernel
  cannot reduce String.splitOn and friends; the definitions mirror the JS
  operations character by character.  path.sep is the posix '/'.
-/

namespace Escomplex

/-- A dependency record as produced by a walker's dependencies descriptor and
consumed by project.js (fields read there: type and path). -/
structure Dependency where
  type : String
  path : String
  line : Option ℕ := none
deriving DecidableEq, Repr

/-- A source location as read from ast.loc / a scope's loc: start.line and
end.line. -/
structure LocRange where
  startLine : ℕ
  endLine : ℕ
deriving DecidableEq, Repr

/-- State of one Halstead bag, as built by createInitialHalsteadItemState in
module.js: distinct count, insertion-ordered identifier list, total count. -/
structure HalsteadItemState where
  distinct : ℕ
  identifiers : List String
  total : ℕ
deriving DecidableEq, Repr

/-- The halstead field of a function report: the operands and operators bags
plus the derived scalars that calculateHalsteadMetrics fills in after the
walk (absent, hence none, until then). -/
structure HalsteadState where
  operands : HalsteadItemState
  operators : HalsteadItemState
  length : Option ℝ := none
  vocabulary : Option ℝ := none
  difficulty : Option ℝ := none
  volume : Option ℝ := none
  effort : Option ℝ := none
  bugs : Option ℝ := none
  time : Option ℝ := none

/-- The sloc field of a function report.  physical is only present when the
scope came with location information (it is endLine - startLine + 1, an Int
because the JS subtraction is unchecked). -/
structure SlocState where
  physical : Option ℤ := none
  logical : ℕ
deriving DecidableEq, Repr

/-- One function report (also the shape of the module aggregate), as built by
createFunctionReport; cyclomaticDensity is filled in by calculateMetrics
after the walk. -/
structure FunctionReport where
  cyclomatic : ℕ
  halstead : HalsteadState
  name : Option String
  params : ℕ
  sloc : SlocState
  line : Option ℕ := none
  cyclomaticDensity : Option ℝ := none

/-- createInitialHalsteadItemState of module.js. -/
def createInitialHalsteadItemState : HalsteadItemState :=
  { distinct := 0, identifiers := [], total := 0 }

/-- createInitialHalsteadState of module.js. -/
def createInitialHalsteadState : HalsteadState :=
  { operands := createInitialHalsteadItemState
    operators := createInitialHalsteadItemState }

/-- createFunctionReport of module.js: cyclomatic starts at 1, logical sloc
at 0; line and physical sloc only when a location is present. -/
def createFunctionReport (name : Option String) (lines : Option LocRange) (params : ℕ) :
    FunctionReport :=
  match lines with
  | none =>
      { cyclomatic := 1, halstead := createInitialHalsteadState, name := name
        params := params, sloc := { logical := 0 } }
  | some l =>
      { cyclomatic := 1, halstead := createInitialHalsteadState, name := name
        params := params
        sloc := { logical := 0, physical := some ((l.endLine : ℤ) - l.startLine + 1) }
        line := some l.startLine }

/-- The module report under construction: aggregate, dependency list and
function list, as produced by createReport in module.js. -/
structure ModuleState where
  aggregate : FunctionReport
  dependencies : List Dependency
  functions : List FunctionReport

/-- createReport of module.js. -/
def createReport (lines : Option LocRange) : ModuleState :=
  { aggregate := createFunctionReport none lines 0
    dependencies := []
    functions := [] }

/-- The analyser's mutable environment during one walk: the report being
built, the scope stack (indices into report.functions, top at the head) and
the clearDependencies latch, initialised to true at the top of analyse. -/
structure AnalyserState where
  report : ModuleState
  scopeStack : List ℕ
  clearDependencies : Bool

/-- The state module.js sets up before walker.walk is invoked. -/
def initialState (astLoc : Option LocRange) : AnalyserState :=
  { report := createReport astLoc, scopeStack := [], clearDependencies := true }

/-- The own property names of Object.prototype in a standard JS host; the
guard in incrementDistinctHalsteadItems tests membership here (the JS code
calls Object.prototype.hasOwnProperty with the identifier as argument). -/
def objectPrototypeOwnProps : List String :=
  ["constructor", "hasOwnProperty", "isPrototypeOf", "propertyIsEnumerable",
   "toLocaleString", "toString", "valueOf", "__defineGetter__",
   "__defineSetter__", "__lookupGetter__", "__lookupSetter__", "__proto__"]

theorem objectPrototypeOwnProps_length_lt :
    ∀ s ∈ objectPrototypeOwnProps, s.length < 25 := by decide

set_option linter.unusedVariables false in
/-- incrementDistinctHalsteadItems of module.js: identifiers clashing with a
built-in property name of Object.prototype are recursively prefixed with an
underscore before the distinctness test; a genuinely new identifier is pushed
and bumps distinct. -/
def incrementDistinctHalsteadItems (b : HalsteadItemState) (identifier : String) :
    HalsteadItemState :=
  if h : identifier ∈ objectPrototypeOwnProps then
    incrementDistinctHalsteadItems b ("_" ++ identifier)
  else if b.identifiers.contains identifier then b
  else { b with identifiers := b.identifiers ++ [identifier], distinct := b.distinct + 1 }
termination_by 25 - identifier.length
decreasing_by
  have hlen := objectPrototypeOwnProps_length_lt identifier h
  have h2 : ("_" ++ identifier).length = 1 + identifier.length := by
    rw [String.length_append, show "_".length = 1 from rfl]
  omega

/-- incrementTotalHalsteadItems of module.js. -/
def incrementTotalHalsteadItems (b : HalsteadItemState) : HalsteadItemState :=
  { b with total := b.total + 1 }

/-- incrementHalsteadItems of module.js: the distinct bookkeeping followed by
the unconditional total increment. -/
def incrementHalsteadItems (b : HalsteadItemState) (identifier : String) :
    HalsteadItemState :=
  incrementTotalHalsteadItems (incrementDistinctHalsteadItems b identifier)

/-- The metric argument threaded through the Halstead helpers of module.js. -/
inductive HalsteadMetric
  | operators
  | operands
deriving DecidableEq, Repr

/-- Selects the bag of a metric, mirroring baseReport.halstead[metric]. -/
def HalsteadState.item (h : HalsteadState) : HalsteadMetric → HalsteadItemState
  | .operators => h.operators
  | .operands => h.operands

/-- Writes back the bag of a metric. -/
def HalsteadState.setItem (h : HalsteadState) : HalsteadMetric → HalsteadItemState → HalsteadState
  | .operators, b => { h with operators := b }
  | .operands, b => { h with operands := b }

/-- One identifier encountered for one metric on one report (the body of
incrementHalsteadItems lifted to a function report). -/
def incrementHalsteadItemsOn (fr : FunctionReport) (metric : HalsteadMetric)
    (identifier : String) : FunctionReport :=
  { fr with halstead :=
      fr.halstead.setItem metric (incrementHalsteadItems (fr.halstead.item metric) identifier) }

/-- A numeric descriptor field of the walker: a literal number or a function
of the node (the _isNumber / _isFunction dispatch in incrementCounter). -/
inductive NumOrFn (Node : Type)
  | num (n : ℕ)
  | fn (f : Node → ℕ)

/-- Evaluates a NumOrFn at a node, as incrementCounter does. -/
def evalNumOrFn {Node : Type} (a : NumOrFn Node) (node : Node) : ℕ :=
  match a with
  | .num n => n
  | .fn f => f node

/-- One entry of a descriptor's operators/operands array: an identifier
(literal or computed from the node) and an optional filter. -/
structure HalsteadItemDesc (Node : Type) where
  identifier : String ⊕ (Node → String)
  filter : Option (Node → Bool) := none

/-- What a dependencies descriptor may return: a single record, an array of
records, or any non-object value (which is ignored by the concat guard). -/
inductive DepValue
  | single (d : Dependency)
  | list (ds : List Dependency)
  | nonObject

/-- The walker's syntax descriptor for one node kind, restricted to the five
fields module.js consumes. -/
structure SyntaxDesc (Node : Type) where
  lloc : Option (NumOrFn Node) := none
  cyclomatic : Option (NumOrFn Node) := none
  operators : Option (List (HalsteadItemDesc Node)) := none
  operands : Option (List (HalsteadItemDesc Node)) := none
  dependencies : Option (Node → Bool → DepValue) := none

/-- One callback invocation of the walker, in traversal order. -/
inductive WalkEvent (Node : Type)
  | createScope (name : Option String) (loc : Option LocRange) (params : ℕ)
  | popScope
  | processNode (node : Node) (syn : SyntaxDesc Node)

/-- Applies an update to the function report at one index of the report's
functions list (a no-op on an out-of-range index, which a walk never
produces). -/
def updateFunctionAt (m : ModuleState) (idx : ℕ) (upd : FunctionReport → FunctionReport) :
    ModuleState :=
  match m.functions[idx]? with
  | some fr => { m with functions := m.functions.set idx (upd fr) }
  | none => m

/-- The shared shape of incrementLogicalSloc, incrementCyclomatic and
halsteadItemEncountered in module.js: the same increment is applied to the
aggregate always and to the current report when one exists (the two are
distinct objects, so the order of the two writes is immaterial). -/
def applyToCurrentAndAggregate (s : AnalyserState) (upd : FunctionReport → FunctionReport) :
    AnalyserState :=
  let report := { s.report with aggregate := upd s.report.aggregate }
  match s.scopeStack.head? with
  | some idx => { s with report := updateFunctionAt report idx upd }
  | none => { s with report := report }

/-- incrementLogicalSloc of module.js. -/
def incrementLogicalSloc (s : AnalyserState) (amount : ℕ) : AnalyserState :=
  applyToCurrentAndAggregate s fun fr =>
    { fr with sloc := { fr.sloc with logical := fr.sloc.logical + amount } }

/-- incrementCyclomatic of module.js. -/
def incrementCyclomatic (s : AnalyserState) (amount : ℕ) : AnalyserState :=
  applyToCurrentAndAggregate s fun fr => { fr with cyclomatic := fr.cyclomatic + amount }

/-- halsteadItemEncountered of module.js. -/
def halsteadItemEncountered (s : AnalyserState) (metric : HalsteadMetric)
    (identifier : String) : AnalyserState :=
  applyToCurrentAndAggregate s fun fr => incrementHalsteadItemsOn fr metric identifier

/-- processLloc of module.js (incrementCounter specialised to lloc). -/
def processLloc {Node : Type} (s : AnalyserState) (node : Node) (syn : SyntaxDesc Node) :
    AnalyserState :=
  match syn.lloc with
  | none => s
  | some amount => incrementLogicalSloc s (evalNumOrFn amount node)

/-- processCyclomatic of module.js. -/
def processCyclomatic {Node : Type} (s : AnalyserState) (node : Node) (syn : SyntaxDesc Node) :
    AnalyserState :=
  match syn.cyclomatic with
  | none => s
  | some amount => incrementCyclomatic s (evalNumOrFn amount node)

/-- The identifier of one operators/operands entry at a node. -/
def evalIdentifier {Node : Type} (d : HalsteadItemDesc Node) (node : Node) : String :=
  match d.identifier with
  | .inl s => s
  | .inr f => f node

/-- Whether one operators/operands entry counts at a node: no filter, or a
filter returning exactly true. -/
def passesFilter {Node : Type} (d : HalsteadItemDesc Node) (node : Node) : Bool :=
  match d.filter with
  | none => true
  | some f => f node

/-- processHalsteadMetric of module.js: each entry of the descriptor array
whose filter passes is fed to halsteadItemEncountered. -/
def processHalsteadMetric {Node : Type} (s : AnalyserState) (node : Node)
    (items : Option (List (HalsteadItemDesc Node))) (metric : HalsteadMetric) :
    AnalyserState :=
  match items with
  | none => s
  | some l =>
      l.foldl (fun s d =>
        if passesFilter d node then halsteadItemEncountered s metric (evalIdentifier d node)
        else s) s

/-- processDependencies of module.js, fused with the latch update in
processNode: when the descriptor has a dependencies function it is called
with the current latch value, object/array results are concatenated onto the
module's dependency list, and the latch is set to false regardless of the
returned value; without a descriptor nothing changes. -/
def processDependencies {Node : Type} (s : AnalyserState) (node : Node)
    (syn : SyntaxDesc Node) : AnalyserState :=
  match syn.dependencies with
  | none => s
  | some f =>
      let res := f node s.clearDependencies
      let s :=
        match res with
        | .single d =>
            { s with report := { s.report with dependencies := s.report.dependencies ++ [d] } }
        | .list ds =>
            { s with report := { s.report with dependencies := s.report.dependencies ++ ds } }
        | .nonObject => s
      { s with clearDependencies := false }

/-- processNode of module.js: the five increments in source order. -/
def processNode {Node : Type} (s : AnalyserState) (node : Node) (syn : SyntaxDesc Node) :
    AnalyserState :=
  let s := processLloc s node syn
  let s := processCyclomatic s node syn
  let s := processHalsteadMetric s node syn.operators .operators
  let s := processHalsteadMetric s node syn.operands .operands
  processDependencies s node syn

/-- pushScope of module.js: a fresh report is appended to functions, becomes
current (its index is pushed), and its parameter count is added to the
aggregate. -/
def pushScope (s : AnalyserState) (name : Option String) (loc : Option LocRange)
    (parameterCount : ℕ) : AnalyserState :=
  let currentReport := createFunctionReport name loc parameterCount
  { report :=
      { s.report with
        functions := s.report.functions ++ [currentReport]
        aggregate :=
          { s.report.aggregate with params := s.report.aggregate.params + parameterCount } }
    scopeStack := s.report.functions.length :: s.scopeStack
    clearDependencies := s.clearDependencies }

/-- popScope of module.js: the stack is popped and the new top (or nothing)
becomes current. -/
def popScope (s : AnalyserState) : AnalyserState :=
  { s with scopeStack := s.scopeStack.tail }

/-- One walker callback applied to the analyser state. -/
def step {Node : Type} (s : AnalyserState) : WalkEvent Node → AnalyserState
  | .createScope name loc params => pushScope s name loc params
  | .popScope => popScope s
  | .processNode node syn => processNode s node syn

/-- The whole walk: walker.walk drives the three callbacks in traversal
order, here a fold of step over the event list. -/
def runWalk {Node : Type} (s : AnalyserState) (events : List (WalkEvent Node)) :
    AnalyserState :=
  events.foldl step s

/-! Instrumentation used to state properties of a walk: the amounts a node
contributes and the latch values passed to dependencies descriptors.  These
replay the same step function; they add no behaviour. -/

/-- The logical-sloc amount a processNode event contributes (0 without an
lloc descriptor). -/
def nodeLlocAmount {Node : Type} (node : Node) (syn : SyntaxDesc Node) : ℕ :=
  match syn.lloc with
  | none => 0
  | some a => evalNumOrFn a node

/-- The cyclomatic amount a processNode event contributes. -/
def nodeCyclomaticAmount {Node : Type} (node : Node) (syn : SyntaxDesc Node) : ℕ :=
  match syn.cyclomatic with
  | none => 0
  | some a => evalNumOrFn a node

/-- How many identifiers of one metric a processNode event records: the
descriptor entries whose filter passes at the node. -/
def nodeHalsteadCount {Node : Type} (node : Node) (items : Option (List (HalsteadItemDesc Node))) : ℕ :=
  match items with
  | none => 0
  | some l => (l.filter (fun d => passesFilter d node)).length

/-- Sum of an amount function over the processNode events that occur while no
function is current (the scope stack is empty), i.e. the contributions that
reach only the aggregate. -/
def topLevelAmount {Node : Type} (f : Node → SyntaxDesc Node → ℕ) :
    AnalyserState → List (WalkEvent Node) → ℕ
  | _, [] => 0
  | s, e :: evs =>
      (match e with
       | .processNode node syn => if s.scopeStack = [] then f node syn else 0
       | _ => 0) + topLevelAmount f (step s e) evs

/-- The sequence of clearFlag values passed to dependencies descriptors
during a walk (the latch is read before the node's own processing can flip
it; the four increments preceding processDependencies never touch it). -/
def dependencyFlags {Node : Type} : AnalyserState → List (WalkEvent Node) → List Bool
  | _, [] => []
  | s, e :: evs =>
      (match e with
       | .processNode _ syn =>
           match syn.dependencies with
           | some _ => [s.clearDependencies]
           | none => []
       | _ => []) ++ dependencyFlags (step s e) evs

/-- How many processNode events of a walk carry a dependencies descriptor. -/
def dependencyCallCount {Node : Type} (events : List (WalkEvent Node)) : ℕ :=
  (events.filter (fun e =>
    match e with
    | .processNode _ syn => syn.dependencies.isSome
    | _ => false)).length

/-- Well-formedness of the scope stack: every index points into the
functions list.  It holds for every state a walk reaches from the initial
state. -/
def ValidStack (s : AnalyserState) : Prop :=
  ∀ idx ∈ s.scopeStack, idx < s.report.functions.length

/-! Metric finalisation (calculateMetrics and its helpers), on real
numbers. -/

/-- calculateCyclomaticDensity of module.js.  With logical sloc 0, JS yields
Infinity where this model yields the junk value 0; no theorem below reads
the value of such a cell. -/
noncomputable def calculateCyclomaticDensity (data : FunctionReport) : FunctionReport :=
  { data with cyclomaticDensity := some ((data.cyclomatic : ℝ) / data.sloc.logical * 100) }

/-- nilHalsteadMetrics combined with the length assignment of
calculateHalsteadMetrics for the empty case. -/
noncomputable def nilHalsteadMetrics (data : HalsteadState) : HalsteadState :=
  { data with vocabulary := some 0, difficulty := some 0, volume := some 0
              effort := some 0, bugs := some 0, time := some 0 }

/-- calculateHalsteadMetrics of module.js, acting on the halstead record.
Math.log is Real.log; log2(vocabulary) is log(vocabulary)/log(2). -/
noncomputable def calculateHalsteadMetrics (data : HalsteadState) : HalsteadState :=
  let len : ℕ := data.operators.total + data.operands.total
  if len = 0 then nilHalsteadMetrics { data with length := some (len : ℝ) }
  else
    let vocabulary : ℕ := data.operators.distinct + data.operands.distinct
    let difficulty : ℝ :=
      ((data.operators.distinct : ℝ) / 2) *
        (if data.operands.distinct = 0 then 1
         else (data.operands.total : ℝ) / data.operands.distinct)
    let volume : ℝ := (len : ℝ) * (Real.log vocabulary / Real.log 2)
    let effort : ℝ := difficulty * volume
    { data with length := some (len : ℝ), vocabulary := some (vocabulary : ℝ)
                difficulty := some difficulty, volume := some volume
                effort := some effort, bugs := some (volume / 3000)
                time := some (effort / 18) }

/-- The two per-report finalisation passes calculateMetrics runs on each
function report and on the aggregate. -/
noncomputable def finalizeFunctionReport (fr : FunctionReport) : FunctionReport :=
  let fr := calculateCyclomaticDensity fr
  { fr with halstead := calculateHalsteadMetrics fr.halstead }

/-- The sums array of calculateMetrics, with named components instead of the
indices record of the source. -/
structure MetricsSums where
  loc : ℕ
  cyclomatic : ℕ
  effort : ℝ
  params : ℕ

/-- sumMaintainabilityMetrics of module.js (halstead.effort is read after
finalisation, when it is always set; getD 0 is the access to the field). -/
noncomputable def sumMaintainabilityMetrics (sums : MetricsSums) (data : FunctionReport) :
    MetricsSums :=
  { loc := sums.loc + data.sloc.logical
    cyclomatic := sums.cyclomatic + data.cyclomatic
    effort := sums.effort + data.halstead.effort.getD 0
    params := sums.params + data.params }

/-- The message of the error thrown by calculateMaintainabilityIndex. -/
def zeroCyclomaticMessage : String :=
  "Encountered function with cyclomatic complexity zero!"

/-- calculateMaintainabilityIndex of module.js: the ZeroCyclomatic throw,
the MI formula, the upper clamp at 171, and the newmi remap. -/
noncomputable def calculateMaintainabilityIndex (averageEffort averageCyclomatic averageLoc : ℝ)
    (newmi : Bool) : Except String ℝ :=
  if averageCyclomatic = 0 then Except.error zeroCyclomaticMessage
  else
    let maintainability : ℝ :=
      171 - 3.42 * Real.log averageEffort - 0.23 * Real.log averageCyclomatic
        - 16.2 * Real.log averageLoc
    let maintainability := if maintainability > 171 then 171 else maintainability
    Except.ok (if newmi then max 0 (maintainability * 100 / 171) else maintainability)

/-- A module report after calculateMetrics: finalised aggregate and function
reports, the dependency list, and the maintainability value plus the four
averages written onto the report. -/
structure FinalModule where
  aggregate : FunctionReport
  functions : List FunctionReport
  dependencies : List Dependency
  maintainability : ℝ
  loc : ℝ
  cyclomatic : ℝ
  effort : ℝ
  params : ℝ

/-- The sums vector calculateMetrics builds: over the finalised function
reports, or over the finalised aggregate alone when there are no
functions. -/
noncomputable def maintainabilitySums (report : ModuleState) : MetricsSums :=
  let sums := (report.functions.map finalizeFunctionReport).foldl
    sumMaintainabilityMetrics ⟨0, 0, 0, 0⟩
  if report.functions.length = 0 then
    sumMaintainabilityMetrics ⟨0, 0, 0, 0⟩ (finalizeFunctionReport report.aggregate)
  else sums

/-- The divisor calculateMetrics uses: the function count, forced to 1 when
there are no functions. -/
def maintainabilityCount (report : ModuleState) : ℕ :=
  if report.functions.length = 0 then 1 else report.functions.length

/-- calculateMetrics of module.js: finalise every function report and the
aggregate, sum the four maintainability metrics over the functions (over the
aggregate alone with count forced to 1 when there are none), divide by the
count, and compute the maintainability index; the settings value consumed
here is newmi. -/
noncomputable def calculateMetrics (report : ModuleState) (newmi : Bool) :
    Except String FinalModule :=
  let functions := report.functions.map finalizeFunctionReport
  let aggregate := finalizeFunctionReport report.aggregate
  let sums := maintainabilitySums report
  let count := maintainabilityCount report
  let averageLoc : ℝ := (sums.loc : ℝ) / count
  let averageCyclomatic : ℝ := (sums.cyclomatic : ℝ) / count
  let averageEffort : ℝ := sums.effort / count
  let averageParams : ℝ := (sums.params : ℝ) / count
  match calculateMaintainabilityIndex averageEffort averageCyclomatic averageLoc newmi with
  | .error e => Except.error e
  | .ok mi =>
      Except.ok
        { aggregate := aggregate, functions := functions
          dependencies := report.dependencies, maintainability := mi
          loc := averageLoc, cyclomatic := averageCyclomatic
          effort := averageEffort, params := averageParams }

/-- The average cyclomatic complexity calculateMetrics computes: over the
function reports, or over the aggregate alone (with count 1) when there are
none.  Finalisation does not change the cyclomatic field, so the walk-state
values can be summed directly. -/
noncomputable def averageCyclomaticOf (report : ModuleState) : ℝ :=
  if report.functions.length = 0 then (report.aggregate.cyclomatic : ℝ) / 1
  else ((report.functions.foldl (fun a fr => a + fr.cyclomatic) 0 : ℕ) : ℝ) /
    report.functions.length

/-- analyse of module.js, for a walk presented as its event list: set up the
initial state from ast.loc, run the walk, then run calculateMetrics. -/
noncomputable def analyse {Node : Type} (astLoc : Option LocRange)
    (events : List (WalkEvent Node)) (newmi : Bool) : Except String FinalModule :=
  calculateMetrics (runWalk (initialState astLoc) events).report newmi

/-! The project analyser (src/project.js).  Paths are handled through the
node path module on posix; here the string operations are carried out on
character lists (String.toList / String.mk at the boundary), mirroring the
posix behaviour of split, resolve, dirname, extname and join on the
absolute paths the analyser produces. -/

/-- path.sep on posix. -/
def pathSep : Char := '/'

/-- A module report as project.js consumes it: the path attached by the
project analyse loop, the dependency list collected during the walk, and the
five scalar fields read by calculateAverages. -/
structure ProjReport where
  path : String
  dependencies : List Dependency
  loc : ℝ
  cyclomatic : ℝ
  effort : ℝ
  params : ℝ
  maintainability : ℝ

/-- Splitting on the separator character (String.prototype.split with
path.sep). -/
def splitPath : List Char → List (List Char)
  | [] => [[]]
  | c :: rest =>
      match splitPath rest with
      | [] => [[]]
      | seg :: segs => if c = pathSep then [] :: seg :: segs else (c :: seg) :: segs

/-- Lexicographic comparison of character lists by code point: the JS `<`
on strings (code-unit order; identical on the basic plane). -/
def charListLt : List Char → List Char → Bool
  | [], [] => false
  | [], _ :: _ => true
  | _ :: _, [] => false
  | a :: as, b :: bs =>
      if a.val < b.val then true else if b.val < a.val then false else charListLt as bs

/-- comparePaths of project.js: fewer separator-split segments first, ties
by plain string order. -/
def comparePaths (lhs rhs : String) : ℤ :=
  let lsplit := splitPath lhs.toList
  let rsplit := splitPath rhs.toList
  if lsplit.length < rsplit.length ∨
      (lsplit.length = rsplit.length ∧ charListLt lhs.toList rhs.toList) then -1
  else if rsplit.length < lsplit.length ∨
      (lsplit.length = rsplit.length ∧ charListLt rhs.toList lhs.toList) then 1
  else 0

/-- Insertion into a sorted list, the auxiliary of insertionSort. -/
def insertSorted {α : Type} (le : α → α → Bool) (x : α) : List α → List α
  | [] => [x]
  | y :: ys => if le x y then x :: y :: ys else y :: insertSorted le x ys

/-- A stable insertion sort, modelling Array.prototype.sort with a
comparator (stable per the ECMAScript specification). -/
def insertionSort {α : Type} (le : α → α → Bool) : List α → List α
  | [] => []
  | x :: xs => insertSorted le x (insertionSort le xs)

/-- The sort at the head of createAdjacencyMatrix: reports ordered by
comparePaths on their paths. -/
def sortReports (reports : List ProjReport) : List ProjReport :=
  insertionSort (fun lhs rhs => comparePaths lhs.path rhs.path ≤ 0) reports

/-- Normalisation of an absolute posix path's segments: empty and dot
segments vanish, a dot-dot segment removes the previous one. -/
def normalizeSegments (segs : List (List Char)) : List (List Char) :=
  segs.foldl (fun acc seg =>
    if seg = [] ∨ seg = ['.'] then acc
    else if seg = ['.', '.'] then acc.dropLast
    else acc ++ [seg]) []

/-- Reassembling an absolute path from normalised segments. -/
def joinAbsolute (segs : List (List Char)) : String :=
  String.mk (pathSep :: List.intercalate [pathSep] segs)

/-- Whether a path is absolute (starts with the separator). -/
def isAbsolutePath (p : String) : Bool :=
  match p.toList with
  | [] => false
  | c :: _ => c = pathSep

/-- path.resolve(base, p) for the uses in project.js, where base is already
absolute: an absolute p is normalised on its own, otherwise p is resolved
against base.  path.resolve(p) with one argument is resolvePath cwd p; the
process's working directory is modelled as the root. -/
def resolvePath (base p : String) : String :=
  if isAbsolutePath p then joinAbsolute (normalizeSegments (splitPath p.toList))
  else joinAbsolute (normalizeSegments (splitPath base.toList ++ splitPath p.toList))

/-- The modelled process.cwd(). -/
def cwd : String := "/"

/-- path.resolve with a single argument. -/
def resolvePath1 (p : String) : String := resolvePath cwd p

/-- path.dirname on posix, for the absolute paths used here. -/
def pathDirname (p : String) : String :=
  let segs := splitPath p.toList
  let d := String.mk (List.intercalate [pathSep] segs.dropLast)
  if d = "" then (if isAbsolutePath p then "/" else ".") else d

/-- path.extname on posix: the suffix of the last segment from its last dot,
unless that dot is its first character; empty when the last segment has no
dot. -/
def pathExtname (p : String) : String :=
  let base := (splitPath p.toList).getLastD []
  let dotIdxs := (List.range base.length).filter (fun i => base.getD i ' ' = '.')
  match dotIdxs.getLast? with
  | some i => if i = 0 then "" else String.mk (base.drop i)
  | none => ""

/-- path.join of an absolute path and a relative one, as used for the
index.js probe. -/
def pathJoin (a b : String) : String :=
  joinAbsolute (normalizeSegments (splitPath a.toList ++ splitPath b.toList))

/-- isCommonJSDependency of project.js. -/
def isCommonJSDependency (dependency : Dependency) : Bool :=
  dependency.type = "CommonJS"

/-- isInternalCommonJSDependency of project.js: first character a dot and
second the separator, or first two characters dots and third the separator
(out-of-range JS indexing yields undefined, which fails the comparison). -/
def isInternalCommonJSDependency (dependency : Dependency) : Bool :=
  let l := dependency.path.toList
  l.getD 0 ' ' = '.' ∧
    (l.getD 1 ' ' = pathSep ∨ (l.getD 1 ' ' = '.' ∧ l.getD 2 ' ' = pathSep))

/-- isDependency of project.js: resolve the dependency path against the
directory of the resolved importer path; without an extension first probe
dependencyAbsolutePath/index.js against the target, then fall back to
appending the target's own extension. -/
def isDependency (fromPath : String) (dependency : Dependency) (toPath : String) : Bool :=
  let dependencyPath := dependency.path
  let fromFileAbsolutePath := resolvePath1 fromPath
  let toFileAbsolutePath := resolvePath1 toPath
  let dependencyAbsolutePath := resolvePath (pathDirname fromFileAbsolutePath) dependencyPath
  if pathExtname dependencyPath = "" then
    let index := pathJoin dependencyAbsolutePath "index.js"
    if index = toFileAbsolutePath then true
    else dependencyAbsolutePath ++ pathExtname toPath = toFileAbsolutePath
  else dependencyAbsolutePath = toFileAbsolutePath

/-- checkDependency of project.js: CommonJS records must pass the relative
gate before resolution; any other type goes straight to isDependency. -/
def checkDependency (fromPath : String) (dependency : Dependency) (toPath : String) : Bool :=
  if isCommonJSDependency dependency then
    if isInternalCommonJSDependency dependency then isDependency fromPath dependency toPath
    else false
  else isDependency fromPath dependency toPath

/-- doesDependencyExist of project.js: the short-circuiting reduce over the
importer's dependency records. -/
def doesDependencyExist (fromReport toReport : ProjReport) : Bool :=
  fromReport.dependencies.foldl
    (fun result dependency =>
      if result = false then checkDependency fromReport.path dependency toReport.path
      else true)
    false

/-- getAdjacencyMatrixValue of project.js. -/
def getAdjacencyMatrixValue (reports : List ProjReport) (x y : ℕ) : ℕ :=
  if x = y then 0
  else
    match reports[x]?, reports[y]? with
    | some fromReport, some toReport => if doesDependencyExist fromReport toReport then 1 else 0
    | _, _ => 0

/-- The adjacency matrix over the sorted reports (the nested forEach of
createAdjacencyMatrix). -/
def createAdjacencyMatrix (reports : List ProjReport) : List (List ℕ) :=
  (List.range reports.length).map fun x =>
    (List.range reports.length).map fun y => getAdjacencyMatrixValue reports x y

/-- The density counter of createAdjacencyMatrix: the number of cells equal
to 1. -/
def matrixDensity (matrix : List (List ℕ)) : ℕ :=
  (matrix.map (fun row => (row.filter (fun v => v = 1)).length)).sum

/-- percentify of project.js, on exact rationals. -/
def percentify (value : ℕ) (limit : ℕ) : ℚ :=
  if limit = 0 then 0 else ((value : ℚ) / limit) * 100

/-- percentifyDensity of project.js. -/
def percentifyDensity (density : ℕ) (matrix : List (List ℕ)) : ℚ :=
  percentify density (matrix.length * matrix.length)

/-- The entry of a list matrix at one position, when present. -/
def matrixEntry (matrix : List (List ℕ)) (i j : ℕ) : Option ℕ :=
  (matrix[i]?).bind fun row => row[j]?

/-- A distance matrix with Infinity, as a function of the two indices. -/
abbrev DistM := ℕ → ℕ → ℕ∞

/-- adjacencyToDistMatrix of project.js: 1 on the diagonal, the cell value
when it is non-zero (the `matrix[i][j] || Infinity` idiom), Infinity
otherwise. -/
def adjacencyToDistMatrix (matrix : List (List ℕ)) : DistM := fun i j =>
  if i = j then 1
  else
    match matrixEntry matrix i j with
    | some v => if v = 0 then ⊤ else (v : ℕ∞)
    | none => ⊤

/-- One in-place relaxation of the Floyd-Warshall triple loop: the cell
(i, j) is lowered to D i k + D k j when that is smaller. -/
def fwUpdate (D : DistM) (k i j : ℕ) : DistM :=
  if D i k + D k j < D i j then
    fun p q => if p = i ∧ q = j then D i k + D k j else D p q
  else D

/-- The innermost Floyd-Warshall loop (over j) at fixed k and i. -/
def fwRow (D : DistM) (n k i : ℕ) : DistM :=
  (List.range n).foldl (fun D j => fwUpdate D k i j) D

/-- The middle Floyd-Warshall loop (over i) at fixed k. -/
def fwPass (D : DistM) (n k : ℕ) : DistM :=
  (List.range n).foldl (fun D i => fwRow D n k i) D

/-- The full Floyd-Warshall computation of createVisibilityMatrix. -/
def floydWarshall (n : ℕ) (D : DistM) : DistM :=
  (List.range n).foldl (fun D k => fwPass D n k) D

/-- createVisibilityMatrix of project.js: run Floyd-Warshall on the distance
matrix, then map back to a 0/1 matrix (1 exactly on finite off-diagonal
cells) while counting every finite cell into changeCost.  Returns the
visibility matrix and the raw changeCost count. -/
def createVisibilityMatrix (adjacencyMatrix : List (List ℕ)) : List (List ℕ) × ℕ :=
  let n := adjacencyMatrix.length
  let D := floydWarshall n (adjacencyToDistMatrix adjacencyMatrix)
  ((List.range n).map fun i =>
     (List.range n).map fun j => if D i j < ⊤ then (if j ≠ i then 1 else 0) else 0,
   ((List.range n).map fun i => ((List.range n).filter fun j => D i j < ⊤).length).sum)

/-- compareNumbers / the sort in getMedian, then the median itself: middle
element for odd length, mean of the two middle elements for even length. -/
def getMedian (values : List ℕ) : ℚ :=
  let sorted := insertionSort (fun a b => a ≤ b) values
  if sorted.length % 2 = 1 then (sorted.getD ((sorted.length - 1) / 2) 0 : ℚ)
  else ((sorted.getD ((sorted.length - 2) / 2) 0 : ℚ) + (sorted.getD (sorted.length / 2) 0 : ℚ)) / 2

/-- setCoreSize of project.js: zero when the first-order density is zero;
otherwise the percentage of rows whose visibility fan-in and fan-out both
reach the medians. -/
def setCoreSize (firstOrderDensity : ℚ) (visibilityMatrix : List (List ℕ)) : ℚ :=
  if firstOrderDensity = 0 then 0
  else
    let fanIn := visibilityMatrix.map (fun row => row.sum)
    let fanOut :=
      (List.range visibilityMatrix.length).map fun c =>
        (visibilityMatrix.map (fun row => row.getD c 0)).sum
    let boundaryIn := getMedian fanIn
    let boundaryOut := getMedian fanOut
    let coreSize :=
      ((List.range visibilityMatrix.length).filter fun idx =>
        boundaryIn ≤ (fanIn.getD idx 0 : ℚ) ∧ boundaryOut ≤ (fanOut.getD idx 0 : ℚ)).length
    percentify coreSize visibilityMatrix.length

/-- The processed project result: the matrices and scalars processResults
attaches (the visibility-derived fields are absent when noCoreSize is
set). -/
structure ProjectResult where
  reports : List ProjReport
  adjacencyMatrix : List (List ℕ)
  firstOrderDensity : ℚ
  visibilityMatrix : Option (List (List ℕ))
  changeCost : Option ℚ
  coreSize : Option ℚ
  cyclomatic : ℝ
  effort : ℝ
  loc : ℝ
  maintainability : ℝ
  params : ℝ

/-- calculateAverages of project.js: each of the five fields summed over the
reports and divided by the count, with divisor 1 for an empty list. -/
noncomputable def calculateAverages (reports : List ProjReport) : ℝ × ℝ × ℝ × ℝ × ℝ :=
  let divisor : ℝ := if reports.length = 0 then 1 else reports.length
  ((reports.map (fun r => r.cyclomatic)).sum / divisor,
   (reports.map (fun r => r.effort)).sum / divisor,
   (reports.map (fun r => r.loc)).sum / divisor,
   (reports.map (fun r => r.maintainability)).sum / divisor,
   (reports.map (fun r => r.params)).sum / divisor)

/-- processResults of project.js: sort and build the adjacency matrix and
first-order density; unless noCoreSize, build the visibility matrix, change
cost and core size; finally the five averages. -/
noncomputable def processResults (reports : List ProjReport) (noCoreSize : Bool) :
    ProjectResult :=
  let sorted := sortReports reports
  let adjacencyMatrix := createAdjacencyMatrix sorted
  let firstOrderDensity := percentifyDensity (matrixDensity adjacencyMatrix) adjacencyMatrix
  let averages := calculateAverages sorted
  if noCoreSize then
    { reports := sorted, adjacencyMatrix := adjacencyMatrix
      firstOrderDensity := firstOrderDensity
      visibilityMatrix := none, changeCost := none, coreSize := none
      cyclomatic := averages.1, effort := averages.2.1, loc := averages.2.2.1
      maintainability := averages.2.2.2.1, params := averages.2.2.2.2 }
  else
    let vis := createVisibilityMatrix adjacencyMatrix
    { reports := sorted, adjacencyMatrix := adjacencyMatrix
      firstOrderDensity := firstOrderDensity
      visibilityMatrix := some vis.1
      changeCost := some (percentifyDensity vis.2 vis.1)
      coreSize := some (setCoreSize firstOrderDensity vis.1)
      cyclomatic := averages.1, effort := averages.2.1, loc := averages.2.2.1
      maintainability := averages.2.2.2.1, params := averages.2.2.2.2 }

/-! Reachability in the adjacency graph, for the visibility-matrix
specification. -/

/-- A directed edge of the adjacency matrix: a present, non-zero cell. -/
def edge (matrix : List (List ℕ)) (i j : ℕ) : Prop :=
  (matrixEntry matrix i j).getD 0 ≠ 0

/-- A directed path of one or more edges. -/
def Reaches (matrix : List (List ℕ)) : ℕ → ℕ → Prop :=
  Relation.TransGen (edge matrix)

/-- A directed path of one or more edges all of whose intermediate vertices
lie in S. -/
inductive PathAmong (matrix : List (List ℕ)) (S : List ℕ) : ℕ → ℕ → Prop
  | single {i j : ℕ} : edge matrix i j → PathAmong matrix S i j
  | cons {i k j : ℕ} : edge matrix i k → k ∈ S → PathAmong matrix S k j →
      PathAmong matrix S i j

/-! Halstead bag computations (claim C10 and supporting equations). -/

theorem prefixed_not_builtin :
    ∀ s ∈ objectPrototypeOwnProps, ("_" ++ s) ∉ objectPrototypeOwnProps := by decide

/-- Unfolding of the distinct increment on a built-in identifier: the
underscore-prefixed form is processed instead. -/
theorem incrementDistinctHalsteadItems_builtin (b : HalsteadItemState) (s : String)
    (h : s ∈ objectPrototypeOwnProps) :
    incrementDistinctHalsteadItems b s = incrementDistinctHalsteadItems b ("_" ++ s) := by
  rw [incrementDistinctHalsteadItems.eq_def]
  simp [h]

/-- Unfolding of the distinct increment on a fresh non-built-in identifier. -/
theorem incrementDistinctHalsteadItems_fresh (b : HalsteadItemState) (s : String)
    (h : s ∉ objectPrototypeOwnProps) (hc : s ∉ b.identifiers) :
    incrementDistinctHalsteadItems b s =
      { b with identifiers := b.identifiers ++ [s], distinct := b.distinct + 1 } := by
  rw [incrementDistinctHalsteadItems.eq_def]
  simp [h, hc]

/-- Unfolding of the distinct increment on an already-recorded non-built-in
identifier. -/
theorem incrementDistinctHalsteadItems_dup (b : HalsteadItemState) (s : String)
    (h : s ∉ objectPrototypeOwnProps) (hc : s ∈ b.identifiers) :
    incrementDistinctHalsteadItems b s = b := by
  rw [incrementDistinctHalsteadItems.eq_def]
  simp [h, hc]

/-- C10: the built-in-name guard conflates an identifier with its
underscore-prefixed form.  For an identifier s that is an own property name
of Object.prototype, encountering s and then "_" ++ s on an empty bag
records only the prefixed string, once, so distinct is 1 while total is 2;
distinct counts are therefore not injective over raw identifiers. -/
theorem C10_builtin_guard_conflates_identifiers (s : String)
    (hs : s ∈ objectPrototypeOwnProps) :
    (incrementHalsteadItems (incrementHalsteadItems createInitialHalsteadItemState s)
        ("_" ++ s)).identifiers = ["_" ++ s]
    ∧ (incrementHalsteadItems (incrementHalsteadItems createInitialHalsteadItemState s)
        ("_" ++ s)).distinct = 1
    ∧ (incrementHalsteadItems (incrementHalsteadItems createInitialHalsteadItemState s)
        ("_" ++ s)).total = 2 := by
  have hnot : ("_" ++ s) ∉ objectPrototypeOwnProps := prefixed_not_builtin s hs
  have e1 : incrementHalsteadItems createInitialHalsteadItemState s =
      { distinct := 1, identifiers := ["_" ++ s], total := 1 } := by
    rw [incrementHalsteadItems, incrementDistinctHalsteadItems_builtin _ _ hs,
      incrementDistinctHalsteadItems_fresh _ _ hnot (by simp [createInitialHalsteadItemState])]
    rfl
  rw [incrementHalsteadItems, e1,
    incrementDistinctHalsteadItems_dup _ _ hnot (by simp)]
  exact ⟨rfl, rfl, rfl⟩

/-- Witness for C10 at the concrete built-in identifier toString. -/
theorem C10_builtin_guard_conflates_identifiers_witness :
    (incrementHalsteadItems (incrementHalsteadItems createInitialHalsteadItemState "toString")
        "_toString").identifiers = ["_toString"]
    ∧ (incrementHalsteadItems (incrementHalsteadItems createInitialHalsteadItemState "toString")
        "_toString").distinct = 1
    ∧ (incrementHalsteadItems (incrementHalsteadItems createInitialHalsteadItemState "toString")
        "_toString").total = 2 :=
  C10_builtin_guard_conflates_identifiers "toString" (by decide)

/-! Frame facts about the walk step: which parts of the state each stage of
processNode can touch.  Shared by the latch (C7), aggregation (C2) and
frame (C4) proofs. -/

/-- applyToCurrentAndAggregate rewrites the aggregate with the update, keeps
the stack, latch and dependency list, keeps the functions-list length, and
changes the functions list only at the current index. -/
theorem applyToCurrentAndAggregate_frame (s : AnalyserState)
    (upd : FunctionReport → FunctionReport) :
    (applyToCurrentAndAggregate s upd).scopeStack = s.scopeStack
    ∧ (applyToCurrentAndAggregate s upd).clearDependencies = s.clearDependencies
    ∧ (applyToCurrentAndAggregate s upd).report.dependencies = s.report.dependencies
    ∧ (applyToCurrentAndAggregate s upd).report.functions.length
        = s.report.functions.length
    ∧ (applyToCurrentAndAggregate s upd).report.aggregate = upd s.report.aggregate := by
  unfold applyToCurrentAndAggregate updateFunctionAt
  cases s.scopeStack.head? with
  | none => exact ⟨rfl, rfl, rfl, rfl, rfl⟩
  | some idx =>
      simp only
      split <;> simp

/-- The functions list after applyToCurrentAndAggregate: unchanged when the
stack is empty, otherwise set at the top index (or unchanged if that index
is dangling, which a walk never produces). -/
theorem applyToCurrentAndAggregate_functions (s : AnalyserState)
    (upd : FunctionReport → FunctionReport) :
    (s.scopeStack.head? = none
      ∧ (applyToCurrentAndAggregate s upd).report.functions = s.report.functions)
    ∨ (∃ idx, s.scopeStack.head? = some idx
        ∧ ((s.report.functions[idx]? = none
              ∧ (applyToCurrentAndAggregate s upd).report.functions = s.report.functions)
            ∨ (∃ fr, s.report.functions[idx]? = some fr
                ∧ (applyToCurrentAndAggregate s upd).report.functions
                    = s.report.functions.set idx (upd fr)))) := by
  unfold applyToCurrentAndAggregate updateFunctionAt
  cases hh : s.scopeStack.head? with
  | none => exact Or.inl ⟨rfl, rfl⟩
  | some idx =>
      refine Or.inr ⟨idx, rfl, ?_⟩
      cases hg : s.report.functions[idx]? with
      | none => exact Or.inl ⟨rfl, by simp [hg]⟩
      | some fr => exact Or.inr ⟨fr, rfl, by simp [hg]⟩

/-- processLloc and processCyclomatic share the applyToCurrentAndAggregate
frame. -/
theorem processLloc_frame {Node : Type} (s : AnalyserState) (node : Node)
    (syn : SyntaxDesc Node) :
    (processLloc s node syn).scopeStack = s.scopeStack
    ∧ (processLloc s node syn).clearDependencies = s.clearDependencies
    ∧ (processLloc s node syn).report.dependencies = s.report.dependencies
    ∧ (processLloc s node syn).report.functions.length = s.report.functions.length := by
  unfold processLloc
  cases syn.lloc with
  | none => exact ⟨rfl, rfl, rfl, rfl⟩
  | some a =>
      have h := applyToCurrentAndAggregate_frame s
        (fun fr => { fr with sloc := { fr.sloc with logical := fr.sloc.logical + evalNumOrFn a node } })
      exact ⟨h.1, h.2.1, h.2.2.1, h.2.2.2.1⟩

theorem processCyclomatic_frame {Node : Type} (s : AnalyserState) (node : Node)
    (syn : SyntaxDesc Node) :
    (processCyclomatic s node syn).scopeStack = s.scopeStack
    ∧ (processCyclomatic s node syn).clearDependencies = s.clearDependencies
    ∧ (processCyclomatic s node syn).report.dependencies = s.report.dependencies
    ∧ (processCyclomatic s node syn).report.functions.length = s.report.functions.length := by
  unfold processCyclomatic
  cases syn.cyclomatic with
  | none => exact ⟨rfl, rfl, rfl, rfl⟩
  | some a =>
      have h := applyToCurrentAndAggregate_frame s
        (fun fr => { fr with cyclomatic := fr.cyclomatic + evalNumOrFn a node })
      exact ⟨h.1, h.2.1, h.2.2.1, h.2.2.2.1⟩

theorem halsteadItemEncountered_frame (s : AnalyserState) (metric : HalsteadMetric)
    (identifier : String) :
    (halsteadItemEncountered s metric identifier).scopeStack = s.scopeStack
    ∧ (halsteadItemEncountered s metric identifier).clearDependencies = s.clearDependencies
    ∧ (halsteadItemEncountered s metric identifier).report.dependencies
        = s.report.dependencies
    ∧ (halsteadItemEncountered s metric identifier).report.functions.length
        = s.report.functions.length := by
  unfold halsteadItemEncountered
  have h := applyToCurrentAndAggregate_frame s
    (fun fr => incrementHalsteadItemsOn fr metric identifier)
  exact ⟨h.1, h.2.1, h.2.2.1, h.2.2.2.1⟩

theorem processHalsteadMetric_frame {Node : Type} (node : Node)
    (items : Option (List (HalsteadItemDesc Node))) (metric : HalsteadMetric) :
    ∀ s : AnalyserState,
      (processHalsteadMetric s node items metric).scopeStack = s.scopeStack
      ∧ (processHalsteadMetric s node items metric).clearDependencies = s.clearDependencies
      ∧ (processHalsteadMetric s node items metric).report.dependencies
          = s.report.dependencies
      ∧ (processHalsteadMetric s node items metric).report.functions.length
          = s.report.functions.length := by
  unfold processHalsteadMetric
  cases items with
  | none => exact fun s => ⟨rfl, rfl, rfl, rfl⟩
  | some l =>
      induction l with
      | nil => exact fun s => ⟨rfl, rfl, rfl, rfl⟩
      | cons d ds ih =>
          intro s
          simp only [List.foldl_cons]
          by_cases hp : passesFilter d node
          · have h := halsteadItemEncountered_frame s metric (evalIdentifier d node)
            have h2 := ih (halsteadItemEncountered s metric (evalIdentifier d node))
            simp only [hp, if_true]
            exact ⟨h2.1.trans h.1, h2.2.1.trans h.2.1, h2.2.2.1.trans h.2.2.1,
              h2.2.2.2.trans h.2.2.2⟩
          · simp only [hp, if_false]
            exact ih s

/-- processDependencies changes only the dependency list and the latch. -/
theorem processDependencies_frame {Node : Type} (s : AnalyserState) (node : Node)
    (syn : SyntaxDesc Node) :
    (processDependencies s node syn).scopeStack = s.scopeStack
    ∧ (processDependencies s node syn).report.functions = s.report.functions
    ∧ (processDependencies s node syn).report.aggregate = s.report.aggregate
    ∧ (processDependencies s node syn).clearDependencies
        = (s.clearDependencies && !syn.dependencies.isSome) := by
  cases hdep : syn.dependencies with
  | none => simp [processDependencies, hdep]
  | some f =>
      cases hres : f node s.clearDependencies <;>
        simp [processDependencies, hdep, hres]

/-- Whether a walk event invokes a dependencies descriptor. -/
def isDependencyEvent {Node : Type} : WalkEvent Node → Bool
  | .processNode _ syn => syn.dependencies.isSome
  | _ => false

/-- The latch after one step: cleared exactly by a dependencies
invocation. -/
theorem step_clearDependencies {Node : Type} (s : AnalyserState) (e : WalkEvent Node) :
    (step s e).clearDependencies = (s.clearDependencies && !(isDependencyEvent e)) := by
  cases e with
  | createScope name loc params => simp [step, pushScope, isDependencyEvent]
  | popScope => simp [step, popScope, isDependencyEvent]
  | processNode node syn =>
      show (processDependencies _ node syn).clearDependencies = _
      rw [(processDependencies_frame _ node syn).2.2.2]
      rw [(processHalsteadMetric_frame node syn.operands .operands _).2.1]
      rw [(processHalsteadMetric_frame node syn.operators .operators _).2.1]
      rw [(processCyclomatic_frame _ node syn).2.1, (processLloc_frame _ node syn).2.1]
      rfl

/-- The latch value read by a processNode event equals the state's latch
(the four preceding increments never touch it), so dependencyFlags, which
samples the latch at event entry, records exactly the argument passed to the
descriptor. -/
theorem dependencyCallCount_cons {Node : Type} (e : WalkEvent Node)
    (evs : List (WalkEvent Node)) :
    dependencyCallCount (e :: evs)
      = (if isDependencyEvent e then 1 else 0) + dependencyCallCount evs := by
  unfold dependencyCallCount
  rw [List.filter_cons]
  cases e with
  | createScope name loc params => simp [isDependencyEvent]
  | popScope => simp [isDependencyEvent]
  | processNode node syn =>
      by_cases hd : syn.dependencies.isSome
      · simp only [isDependencyEvent, hd, if_true, List.length_cons]
        omega
      · simp [isDependencyEvent, hd]

/-- Once the latch is false it stays false and every later descriptor sees
false. -/
theorem dependencyFlags_of_false {Node : Type} (events : List (WalkEvent Node)) :
    ∀ s : AnalyserState, s.clearDependencies = false →
      dependencyFlags s events = List.replicate (dependencyCallCount events) false
      ∧ (runWalk s events).clearDependencies = false := by
  induction events with
  | nil => exact fun s hs => ⟨rfl, hs⟩
  | cons e evs ih =>
      intro s hs
      have hstep : (step s e).clearDependencies = false := by
        rw [step_clearDependencies, hs, Bool.false_and]
      obtain ⟨ih1, ih2⟩ := ih (step s e) hstep
      have hrun : runWalk s (e :: evs) = runWalk (step s e) evs := rfl
      refine ⟨?_, by rw [hrun]; exact ih2⟩
      rw [dependencyCallCount_cons]
      cases e with
      | createScope name loc params =>
          simpa [dependencyFlags, isDependencyEvent] using ih1
      | popScope =>
          simpa [dependencyFlags, isDependencyEvent] using ih1
      | processNode node syn =>
          cases hdep : syn.dependencies with
          | none => simpa [dependencyFlags, isDependencyEvent, hdep] using ih1
          | some f =>
              simp [dependencyFlags, isDependencyEvent, hdep, hs, ih1,
                List.replicate_add, List.replicate_one]

/-- From a true latch the first descriptor reads true and all later ones
read false. -/
theorem dependencyFlags_of_true {Node : Type} (events : List (WalkEvent Node)) :
    ∀ s : AnalyserState, s.clearDependencies = true →
      dependencyFlags s events =
        (if dependencyCallCount events = 0 then []
         else true :: List.replicate (dependencyCallCount events - 1) false)
      ∧ (runWalk s events).clearDependencies = decide (dependencyCallCount events = 0) := by
  induction events with
  | nil => exact fun s hs => ⟨rfl, by simpa [dependencyCallCount] using hs⟩
  | cons e evs ih =>
      intro s hs
      have hrun : runWalk s (e :: evs) = runWalk (step s e) evs := rfl
      rw [dependencyCallCount_cons]
      by_cases hd : isDependencyEvent e
      · have hstep : (step s e).clearDependencies = false := by
          rw [step_clearDependencies, hs, hd]
          rfl
        obtain ⟨h1, h2⟩ := dependencyFlags_of_false evs (step s e) hstep
        rw [if_pos hd]
        constructor
        · cases e with
          | createScope name loc params => simp [isDependencyEvent] at hd
          | popScope => simp [isDependencyEvent] at hd
          | processNode node syn =>
              cases hdep : syn.dependencies with
              | none => simp [isDependencyEvent, hdep] at hd
              | some f => simp [dependencyFlags, hdep, hs, h1]
        · rw [hrun, h2]
          simp
      · have hstep : (step s e).clearDependencies = true := by
          rw [step_clearDependencies, hs]
          simp [hd]
        obtain ⟨ih1, ih2⟩ := ih (step s e) hstep
        rw [if_neg hd]
        constructor
        · cases e with
          | createScope name loc params => simpa [dependencyFlags] using ih1
          | popScope => simpa [dependencyFlags] using ih1
          | processNode node syn =>
              cases hdep : syn.dependencies with
              | none => simpa [dependencyFlags, hdep] using ih1
              | some f => simp [isDependencyEvent, hdep] at hd
        · rw [hrun, ih2]
          simp

/-- C7: during one walk, the clearFlag passed to a dependencies descriptor
is true on the first invocation and false on every later one, and the latch
flips after the first invocation regardless of the value that invocation
returns (the flag sequence depends only on which events carry a descriptor,
never on the returned DepValue). -/
theorem C7_dependency_latch (Node : Type) (astLoc : Option LocRange)
    (events : List (WalkEvent Node)) :
    dependencyFlags (initialState astLoc) events =
      (if dependencyCallCount events = 0 then []
       else true :: List.replicate (dependencyCallCount events - 1) false)
    ∧ (runWalk (initialState astLoc) events).clearDependencies =
        decide (dependencyCallCount events = 0) :=
  dependencyFlags_of_true events (initialState astLoc) rfl

/-! Dependency resolution (claim C8). -/

/-- The short-circuiting reduce of doesDependencyExist never leaves true. -/
theorem doesDependencyExist_foldl_true (p tp : String) (l : List Dependency) :
    l.foldl (fun result dependency =>
      if result = false then checkDependency p dependency tp else true) true = true := by
  induction l with
  | nil => rfl
  | cons d ds ih => simpa using ih

/-- A record on which checkDependency fails contributes nothing to the
reduce, wherever it sits in the list. -/
theorem doesDependencyExist_foldl_splice (p tp : String) (d : Dependency)
    (h : checkDependency p d tp = false) (post : List Dependency) :
    ∀ (pre : List Dependency) (b : Bool),
      (pre ++ d :: post).foldl (fun result dependency =>
        if result = false then checkDependency p dependency tp else true) b
      = (pre ++ post).foldl (fun result dependency =>
        if result = false then checkDependency p dependency tp else true) b := by
  intro pre
  induction pre with
  | nil =>
      intro b
      cases b with
      | false => simp [h]
      | true => simp
  | cons e es ih =>
      intro b
      simp only [List.cons_append, List.foldl_cons]
      exact ih _

/-- C8: a CommonJS record whose path fails the textual relative test (first
character a dot and second the separator, or two dots then the separator)
never resolves against any module and contributes no edge, while records of
any other type bypass the gate and go straight to path resolution. -/
theorem C8_commonjs_relative_gate (d e : Dependency)
    (fromPath toPath otherFrom otherTo : String) (fromRep toRep : ProjReport)
    (pre post : List Dependency)
    (hd : d.type = "CommonJS") (hrel : isInternalCommonJSDependency d = false)
    (he : e.type ≠ "CommonJS") :
    checkDependency fromPath d toPath = false
    ∧ doesDependencyExist { fromRep with dependencies := pre ++ d :: post } toRep
        = doesDependencyExist { fromRep with dependencies := pre ++ post } toRep
    ∧ checkDependency otherFrom e otherTo = isDependency otherFrom e otherTo := by
  have hgate : ∀ p tp, checkDependency p d tp = false := by
    intro p tp
    simp [checkDependency, isCommonJSDependency, hd, hrel]
  refine ⟨hgate fromPath toPath, ?_, ?_⟩
  · unfold doesDependencyExist
    exact doesDependencyExist_foldl_splice fromRep.path toRep.path d
      (hgate fromRep.path toRep.path) post pre false
  · simp [checkDependency, isCommonJSDependency, he]

/-- Witness for C8: the lodash record from the spec scenario against
concrete paths, and an AMD-typed record skipping the gate. -/
theorem C8_commonjs_relative_gate_witness :
    checkDependency "/a.js" { type := "CommonJS", path := "lodash" } "/b.js" = false
    ∧ doesDependencyExist
        { path := "/a.js"
          dependencies := [{ type := "CommonJS", path := "lodash" }]
          loc := 0, cyclomatic := 0, effort := 0, params := 0, maintainability := 0 }
        { path := "/b.js", dependencies := []
          loc := 0, cyclomatic := 0, effort := 0, params := 0, maintainability := 0 }
        = doesDependencyExist
        { path := "/a.js", dependencies := []
          loc := 0, cyclomatic := 0, effort := 0, params := 0, maintainability := 0 }
        { path := "/b.js", dependencies := []
          loc := 0, cyclomatic := 0, effort := 0, params := 0, maintainability := 0 }
    ∧ checkDependency "/a.js" { type := "AMD", path := "lodash" } "/b.js"
        = isDependency "/a.js" { type := "AMD", path := "lodash" } "/b.js" :=
  C8_commonjs_relative_gate
    { type := "CommonJS", path := "lodash" } { type := "AMD", path := "lodash" }
    "/a.js" "/b.js" "/a.js" "/b.js"
    { path := "/a.js", dependencies := []
      loc := 0, cyclomatic := 0, effort := 0, params := 0, maintainability := 0 }
    { path := "/b.js", dependencies := []
      loc := 0, cyclomatic := 0, effort := 0, params := 0, maintainability := 0 }
    [] [] rfl (by decide) (by decide)

/-! The empty project (claim C9). -/

/-- C9: processResults on an empty report list yields empty matrices and
exact zeros for first-order density, change cost, core size and the five
averages; percentify guards its zero limit and the averages divisor is
forced to 1, so no division by zero is involved. -/
theorem C9_empty_project_zeros :
    (processResults [] false).reports = []
    ∧ (processResults [] false).adjacencyMatrix = []
    ∧ (processResults [] false).visibilityMatrix = some []
    ∧ (processResults [] false).firstOrderDensity = 0
    ∧ (processResults [] false).changeCost = some 0
    ∧ (processResults [] false).coreSize = some 0
    ∧ (processResults [] false).loc = 0
    ∧ (processResults [] false).cyclomatic = 0
    ∧ (processResults [] false).effort = 0
    ∧ (processResults [] false).params = 0
    ∧ (processResults [] false).maintainability = 0
    ∧ (∀ value : ℕ, percentify value 0 = 0) := by
  refine ⟨?_, ?_, ?_, ?_, ?_, ?_, ?_, ?_, ?_, ?_, ?_, fun value => by simp [percentify]⟩ <;>
    simp [processResults, sortReports, insertionSort, createAdjacencyMatrix,
      matrixDensity, percentifyDensity, percentify, createVisibilityMatrix,
      floydWarshall, setCoreSize, calculateAverages]

/-! The two-module scenario (claim C6). -/

/-- Module A of the two-module scenario: one CommonJS dependency on the
relative path ./b, with module path "/a.js"; the scalar fields are
irrelevant to the matrices. -/
def scenarioModuleA : ProjReport :=
  { path := "/a.js", dependencies := [{ type := "CommonJS", path := "./b" }]
    loc := 0, cyclomatic := 0, effort := 0, params := 0, maintainability := 0 }

/-- Module B of the two-module scenario: no dependencies, path ending in
b.js. -/
def scenarioModuleB : ProjReport :=
  { path := "/b.js", dependencies := []
    loc := 0, cyclomatic := 0, effort := 0, params := 0, maintainability := 0 }

/-- C6: for the two-module project A depends on B, processResults yields
adjacency [[0,1],[0,0]], first-order density 25, a visibility matrix equal
to the adjacency matrix, and change cost 75 - the three finite distance
cells include the diagonal, which the visibility matrix itself zeroes. -/
theorem C6_two_module_scenario :
    (processResults [scenarioModuleA, scenarioModuleB] false).adjacencyMatrix
        = [[0, 1], [0, 0]]
    ∧ (processResults [scenarioModuleA, scenarioModuleB] false).firstOrderDensity = 25
    ∧ (processResults [scenarioModuleA, scenarioModuleB] false).visibilityMatrix
        = some ((processResults [scenarioModuleA, scenarioModuleB] false).adjacencyMatrix)
    ∧ (processResults [scenarioModuleA, scenarioModuleB] false).changeCost = some 75 := by
  have hdens : (processResults [scenarioModuleA, scenarioModuleB] false).firstOrderDensity
      = percentify 1 4 := rfl
  have hcost : (processResults [scenarioModuleA, scenarioModuleB] false).changeCost
      = some (percentify 3 4) := rfl
  refine ⟨rfl, ?_, rfl, ?_⟩
  · rw [hdens]
    norm_num [percentify]
  · rw [hcost]
    norm_num [percentify]

/-! ZeroCyclomatic behaviour of calculateMetrics (claim C5). -/

/-- Finalisation never changes the cyclomatic count of a report. -/
theorem finalizeFunctionReport_cyclomatic (fr : FunctionReport) :
    (finalizeFunctionReport fr).cyclomatic = fr.cyclomatic := rfl

/-- The cyclomatic component of the sums fold is the plain fold of the
cyclomatic counts. -/
theorem foldl_sums_cyclomatic (l : List FunctionReport) :
    ∀ s : MetricsSums,
      ((l.map finalizeFunctionReport).foldl sumMaintainabilityMetrics s).cyclomatic
        = l.foldl (fun a fr => a + fr.cyclomatic) s.cyclomatic := by
  induction l with
  | nil => exact fun s => rfl
  | cons fr frs ih =>
      intro s
      simp only [List.map_cons, List.foldl_cons]
      rw [ih]
      rfl

/-- The average cyclomatic value computed inside calculateMetrics is
averageCyclomaticOf. -/
theorem maintainabilitySums_avg (m : ModuleState) :
    ((maintainabilitySums m).cyclomatic : ℝ) / (maintainabilityCount m : ℕ)
      = averageCyclomaticOf m := by
  unfold maintainabilitySums maintainabilityCount averageCyclomaticOf
  by_cases h0 : m.functions.length = 0
  · rw [if_pos h0, if_pos h0, if_pos h0]
    simp [sumMaintainabilityMetrics, finalizeFunctionReport_cyclomatic]
  · rw [if_neg h0, if_neg h0, if_neg h0]
    rw [foldl_sums_cyclomatic]

/-- calculateMetrics raises exactly the ZeroCyclomatic error, and exactly
when its average cyclomatic value is zero. -/
theorem calculateMetrics_error_iff (m : ModuleState) (nm : Bool) :
    calculateMetrics m nm = Except.error zeroCyclomaticMessage
      ↔ averageCyclomaticOf m = 0 := by
  have havg := maintainabilitySums_avg m
  simp only [calculateMetrics]
  rw [havg]
  by_cases h : averageCyclomaticOf m = 0
  · simp [calculateMaintainabilityIndex, h]
  · simp [calculateMaintainabilityIndex, h]

/-- On every other input calculateMetrics returns a value. -/
theorem calculateMetrics_ok_iff (m : ModuleState) (nm : Bool) :
    (∃ out, calculateMetrics m nm = Except.ok out) ↔ averageCyclomaticOf m ≠ 0 := by
  have havg := maintainabilitySums_avg m
  simp only [calculateMetrics]
  rw [havg]
  by_cases h : averageCyclomaticOf m = 0
  · simp [calculateMaintainabilityIndex, h]
  · simp [calculateMaintainabilityIndex, h]

/-- C5: calculateMetrics raises the ZeroCyclomatic error if and only if the
average cyclomatic complexity it computes (over the function reports, or
over the aggregate alone when there are none) is 0, and on every other
input it returns a result without raising; stated over one input of each
kind. -/
theorem C5_zero_cyclomatic_error (m0 m1 : ModuleState) (nm0 nm1 : Bool)
    (h0 : averageCyclomaticOf m0 = 0) (h1 : averageCyclomaticOf m1 ≠ 0) :
    calculateMetrics m0 nm0 = Except.error zeroCyclomaticMessage
    ∧ ∃ out, calculateMetrics m1 nm1 = Except.ok out :=
  ⟨(calculateMetrics_error_iff m0 nm0).mpr h0, (calculateMetrics_ok_iff m1 nm1).mpr h1⟩

/-- A module state whose aggregate carries cyclomatic 0 (constructible as a
raw calculateMetrics input; a walk always starts the aggregate at 1). -/
def zeroCyclomaticModule : ModuleState :=
  { aggregate :=
      { cyclomatic := 0, halstead := createInitialHalsteadState, name := none
        params := 0, sloc := { logical := 0 } }
    dependencies := [], functions := [] }

/-- Witness for C5: the zero-cyclomatic input errors, the fresh empty module
report (aggregate cyclomatic 1) succeeds. -/
theorem C5_zero_cyclomatic_error_witness :
    calculateMetrics zeroCyclomaticModule false = Except.error zeroCyclomaticMessage
    ∧ ∃ out, calculateMetrics (createReport none) true = Except.ok out :=
  C5_zero_cyclomatic_error zeroCyclomaticModule (createReport none) false true
    (by simp [averageCyclomaticOf, zeroCyclomaticModule])
    (by simp [averageCyclomaticOf, createReport, createFunctionReport])

/-! Maintainability bounds (claim C3).  The code clamps the maintainability
index only from above (at 171); the lower clamp exists only on the newmi
branch.  A module with a huge logical-sloc descriptor therefore yields a
negative maintainability when newmi is false. -/

/-- A walker descriptor carrying a huge literal logical-sloc amount and two
operators (a legal descriptor: lloc may be any number). -/
def bigLlocSyntax : SyntaxDesc Unit :=
  { lloc := some (.num (2 ^ 100))
    operators := some [{ identifier := .inl "+" }, { identifier := .inl "=" }] }

/-- One function whose body carries the descriptor above. -/
def bigLlocEvents : List (WalkEvent Unit) :=
  [.createScope (some "f") none 0, .processNode () bigLlocSyntax, .popScope]

/-- The function report the walk above produces. -/
def bigLlocFunctionReport : FunctionReport :=
  { cyclomatic := 1
    halstead := { operands := createInitialHalsteadItemState
                  operators := { distinct := 2, identifiers := ["+", "="], total := 2 } }
    name := some "f", params := 0, sloc := { logical := 2 ^ 100 } }

/-- The module state the walk above produces. -/
def bigLlocModule : ModuleState :=
  { aggregate := { bigLlocFunctionReport with name := none }
    dependencies := []
    functions := [bigLlocFunctionReport] }

theorem bigLloc_walk :
    (runWalk (initialState none) bigLlocEvents).report = bigLlocModule := by
  simp [runWalk, bigLlocEvents, step, processNode, processLloc, processCyclomatic,
    processHalsteadMetric, processDependencies, bigLlocSyntax, pushScope, popScope,
    initialState, createReport, createFunctionReport, createInitialHalsteadState,
    createInitialHalsteadItemState, incrementLogicalSloc, incrementCyclomatic,
    halsteadItemEncountered, applyToCurrentAndAggregate, updateFunctionAt,
    incrementHalsteadItemsOn, incrementHalsteadItems, incrementTotalHalsteadItems,
    HalsteadState.item, HalsteadState.setItem, evalNumOrFn, evalIdentifier, passesFilter,
    incrementDistinctHalsteadItems_fresh, objectPrototypeOwnProps,
    bigLlocModule, bigLlocFunctionReport]

theorem bigLloc_sums :
    maintainabilitySums bigLlocModule
      = { loc := 2 ^ 100, cyclomatic := 1, effort := 2, params := 0 } := by
  have hlog2 : Real.log 2 ≠ 0 := ne_of_gt (Real.log_pos one_lt_two)
  simp [maintainabilitySums, bigLlocModule, bigLlocFunctionReport, sumMaintainabilityMetrics,
    finalizeFunctionReport, calculateCyclomaticDensity, calculateHalsteadMetrics,
    createInitialHalsteadItemState, MetricsSums.mk.injEq]
  field_simp

theorem bigLloc_count : maintainabilityCount bigLlocModule = 1 := rfl

theorem bigLloc_calcMI :
    calculateMaintainabilityIndex 2 1 ((2 ^ 100 : ℕ) : ℝ) false =
      Except.ok (171 - 3.42 * Real.log 2 - 0.23 * Real.log 1
        - 16.2 * Real.log ((2 ^ 100 : ℕ) : ℝ)) := by
  have hlog2 := Real.log_two_gt_d9
  have hcast : ((2 ^ 100 : ℕ) : ℝ) = (2 : ℝ) ^ 100 := by push_cast; ring
  have hlogbig : Real.log ((2 ^ 100 : ℕ) : ℝ) = 100 * Real.log 2 := by
    rw [hcast, Real.log_pow]
    push_cast
    ring
  simp only [calculateMaintainabilityIndex]
  rw [if_neg (by norm_num : ¬(1 : ℝ) = 0)]
  have hnotgt : ¬(171 - 3.42 * Real.log 2 - 0.23 * Real.log 1
      - 16.2 * Real.log ((2 ^ 100 : ℕ) : ℝ) > 171) := by
    rw [hlogbig, Real.log_one]
    nlinarith
  rw [if_neg hnotgt]
  simp

theorem bigLloc_negative :
    (171 : ℝ) - 3.42 * Real.log 2 - 0.23 * Real.log 1
      - 16.2 * Real.log ((2 ^ 100 : ℕ) : ℝ) < 0 := by
  have hlog2 := Real.log_two_gt_d9
  have hcast : ((2 ^ 100 : ℕ) : ℝ) = (2 : ℝ) ^ 100 := by push_cast; ring
  have hlogbig : Real.log ((2 ^ 100 : ℕ) : ℝ) = 100 * Real.log 2 := by
    rw [hcast, Real.log_pow]
    push_cast
    ring
  rw [hlogbig, Real.log_one]
  nlinarith

/-- The maintainability value carried by an analyse result (0 for an
error). -/
noncomputable def exceptMaintainability (r : Except String FinalModule) : ℝ :=
  match r with
  | .ok out => out.maintainability
  | .error _ => 0

/-- The finalised module the walk above yields under calculateMetrics. -/
noncomputable def bigLlocFinal : FinalModule :=
  { aggregate := finalizeFunctionReport bigLlocModule.aggregate
    functions := [finalizeFunctionReport bigLlocFunctionReport]
    dependencies := []
    maintainability := 171 - 3.42 * Real.log 2 - 0.23 * Real.log 1
      - 16.2 * Real.log ((2 ^ 100 : ℕ) : ℝ)
    loc := ((2 ^ 100 : ℕ) : ℝ), cyclomatic := 1, effort := 2, params := 0 }

theorem bigLloc_metrics : calculateMetrics bigLlocModule false = Except.ok bigLlocFinal := by
  simp only [calculateMetrics, bigLloc_sums, bigLloc_count, Nat.cast_one, div_one]
  rw [bigLloc_calcMI]
  simp [bigLlocModule, bigLlocFinal]

/-- Counterexample to C3 as stated: analyse succeeds on this module and
returns a negative maintainability (settings.newmi is false), so the value
does not lie in the interval claimed. -/
theorem C3_maintainability_negative_counterexample :
    (@analyse Unit none bigLlocEvents false).isOk = true
    ∧ exceptMaintainability (@analyse Unit none bigLlocEvents false) < 0 := by
  have hana : @analyse Unit none bigLlocEvents false = calculateMetrics bigLlocModule false := by
    unfold analyse
    rw [bigLloc_walk]
  rw [hana, bigLloc_metrics]
  exact ⟨rfl, by simpa [exceptMaintainability, bigLlocFinal] using bigLloc_negative⟩

/-- What the ok branch of calculateMaintainabilityIndex guarantees: at most
171 always, and inside the interval from 0 to 100 when newmi is true. -/
theorem calculateMaintainabilityIndex_ok_bounds (e c l : ℝ) (nm : Bool) (r : ℝ)
    (h : calculateMaintainabilityIndex e c l nm = Except.ok r) :
    r ≤ 171 ∧ (nm = true → 0 ≤ r ∧ r ≤ 100) := by
  simp only [calculateMaintainabilityIndex] at h
  by_cases hc : c = 0
  · rw [if_pos hc] at h
    exact absurd h (by simp)
  · rw [if_neg hc] at h
    have hval := (Except.ok.injEq _ _).mp h
    set mi := 171 - 3.42 * Real.log e - 0.23 * Real.log c - 16.2 * Real.log l with hmi
    have hclamp : (if mi > 171 then (171 : ℝ) else mi) ≤ 171 := by
      split
      · exact le_refl _
      · linarith [not_lt.mp (by assumption)]
    cases nm with
    | false =>
        rw [if_neg (by simp)] at hval
        exact ⟨by rw [← hval]; exact hclamp, by intro hf; exact absurd hf (by simp)⟩
    | true =>
        rw [if_pos rfl] at hval
        constructor
        · rw [← hval]
          have : (if mi > 171 then (171 : ℝ) else mi) * 100 / 171 ≤ 100 := by
            nlinarith [hclamp]
          calc max 0 ((if mi > 171 then (171 : ℝ) else mi) * 100 / 171) ≤ 100 := by
                apply max_le (by norm_num) this
            _ ≤ 171 := by norm_num
        · intro _
          rw [← hval]
          refine ⟨le_max_left 0 _, ?_⟩
          apply max_le (by norm_num)
          nlinarith [hclamp]

/-- The maintainability value of a successful calculateMetrics comes from an
ok branch of calculateMaintainabilityIndex. -/
theorem calculateMetrics_ok_maintainability (m : ModuleState) (nm : Bool) (out : FinalModule)
    (h : calculateMetrics m nm = Except.ok out) :
    ∃ e c l, calculateMaintainabilityIndex e c l nm = Except.ok out.maintainability := by
  simp only [calculateMetrics] at h
  split at h
  · exact absurd h (by simp)
  · next mi heq =>
      have hout : out.maintainability = mi := by
        have h2 := (Except.ok.injEq _ _).mp h
        rw [← h2]
      exact ⟨_, _, _, by rw [hout]; exact heq⟩

/-- C3 amended: for every module report returned by analyse the
maintainability value is at most 171; when settings.newmi is true it also
lies between 0 and 100; with newmi false it can be negative (see the
counterexample), so the claimed lower bound 0 holds only on the newmi
branch. -/
theorem C3_amended_maintainability_bounds (Node0 Node1 : Type)
    (astLoc0 astLoc1 : Option LocRange) (evs0 : List (WalkEvent Node0))
    (evs1 : List (WalkEvent Node1)) (out0 out1 : FinalModule)
    (h0 : analyse astLoc0 evs0 false = Except.ok out0)
    (h1 : analyse astLoc1 evs1 true = Except.ok out1) :
    out0.maintainability ≤ 171 ∧ 0 ≤ out1.maintainability ∧ out1.maintainability ≤ 100 := by
  unfold analyse at h0 h1
  obtain ⟨e0, c0, l0, hm0⟩ := calculateMetrics_ok_maintainability _ _ _ h0
  obtain ⟨e1, c1, l1, hm1⟩ := calculateMetrics_ok_maintainability _ _ _ h1
  have b0 := calculateMaintainabilityIndex_ok_bounds _ _ _ _ _ hm0
  have b1 := calculateMaintainabilityIndex_ok_bounds _ _ _ _ _ hm1
  exact ⟨b0.1, (b1.2 rfl).1, (b1.2 rfl).2⟩

/-- What analyse returns on an empty walk with no ast location, for each
newmi setting. -/
noncomputable def emptyModuleFinal (nm : Bool) : FinalModule :=
  { aggregate := finalizeFunctionReport (createFunctionReport none none 0)
    functions := [], dependencies := []
    maintainability := if nm then 100 else 171
    loc := 0, cyclomatic := 1, effort := 0, params := 0 }

theorem empty_sums : maintainabilitySums (createReport none) =
    { loc := 0, cyclomatic := 1, effort := 0, params := 0 } := by
  simp [maintainabilitySums, createReport, createFunctionReport, sumMaintainabilityMetrics,
    finalizeFunctionReport, calculateCyclomaticDensity, calculateHalsteadMetrics,
    nilHalsteadMetrics, createInitialHalsteadState, createInitialHalsteadItemState]

theorem calcMI_empty (nm : Bool) :
    calculateMaintainabilityIndex 0 1 0 nm = Except.ok (if nm then 100 else 171) := by
  simp only [calculateMaintainabilityIndex]
  rw [if_neg (by norm_num : ¬(1 : ℝ) = 0), Real.log_zero, Real.log_one]
  cases nm <;> norm_num

theorem analyse_empty (nm : Bool) :
    @analyse Unit none [] nm = Except.ok (emptyModuleFinal nm) := by
  show calculateMetrics (runWalk (initialState none) ([] : List (WalkEvent Unit))).report nm = _
  rw [show (runWalk (initialState none) ([] : List (WalkEvent Unit))).report
      = createReport none from rfl]
  simp only [calculateMetrics, empty_sums,
    show maintainabilityCount (createReport none) = 1 from rfl,
    Nat.cast_one, Nat.cast_zero, div_one, zero_div]
  rw [calcMI_empty]
  simp [emptyModuleFinal, createReport]

/-- Witness for the amended C3 at the empty walk. -/
theorem C3_amended_maintainability_bounds_witness :
    (emptyModuleFinal false).maintainability ≤ 171
    ∧ 0 ≤ (emptyModuleFinal true).maintainability
    ∧ (emptyModuleFinal true).maintainability ≤ 100 :=
  C3_amended_maintainability_bounds Unit Unit none none [] []
    (emptyModuleFinal false) (emptyModuleFinal true)
    (analyse_empty false) (analyse_empty true)

/-! Aggregation balance of the walk (claim C2): each processNode increment
reaches the aggregate always and the current function when one exists, so
the aggregate totals decompose into the function totals plus the top-level
contributions. -/

/-- The distinct bookkeeping never changes a bag's total. -/
theorem incrementDistinctHalsteadItems_total (b : HalsteadItemState) (s : String) :
    (incrementDistinctHalsteadItems b s).total = b.total := by
  by_cases h : s ∈ objectPrototypeOwnProps
  · rw [incrementDistinctHalsteadItems_builtin b s h]
    exact incrementDistinctHalsteadItems_total b ("_" ++ s)
  · rw [incrementDistinctHalsteadItems.eq_def, dif_neg h]
    split <;> rfl
termination_by 25 - s.length
decreasing_by
  have hlen := objectPrototypeOwnProps_length_lt s h
  have h2 : ("_" ++ s).length = 1 + s.length := by
    rw [String.length_append, show "_".length = 1 from rfl]
  omega

/-- Setting one present element of a list shifts the mapped sum by the
difference of the images. -/
theorem sum_map_set (g : FunctionReport → ℕ) :
    ∀ (l : List FunctionReport) (i : ℕ) (x y : FunctionReport), l[i]? = some x →
      ((l.set i y).map g).sum + g x = (l.map g).sum + g y := by
  intro l
  induction l with
  | nil => intro i x y h; simp at h
  | cons a as ih =>
      intro i x y h
      cases i with
      | zero =>
          have hx : x = a := by simpa using h.symm
          subst hx
          simp only [List.set, List.map_cons, List.sum_cons]
          omega
      | succ n =>
          have h2 := ih n x y (by simpa using h)
          simp only [List.set, List.map_cons, List.sum_cons]
          omega

/-- The measure effect of the shared aggregate-and-current update: the
aggregate gains c, the sum over functions gains c exactly when a function is
current, and stack validity is preserved. -/
theorem applyToCurrentAndAggregate_measure (μ : FunctionReport → ℕ) (c : ℕ)
    (upd : FunctionReport → FunctionReport) (hupd : ∀ fr, μ (upd fr) = μ fr + c)
    (s : AnalyserState) (hs : ValidStack s) :
    μ (applyToCurrentAndAggregate s upd).report.aggregate = μ s.report.aggregate + c
    ∧ ((applyToCurrentAndAggregate s upd).report.functions.map μ).sum
        = (s.report.functions.map μ).sum + (if s.scopeStack = [] then 0 else c)
    ∧ ValidStack (applyToCurrentAndAggregate s upd) := by
  have hframe := applyToCurrentAndAggregate_frame s upd
  have hagg : μ (applyToCurrentAndAggregate s upd).report.aggregate
      = μ s.report.aggregate + c := by
    rw [hframe.2.2.2.2, hupd]
  have hvalid : ValidStack (applyToCurrentAndAggregate s upd) := by
    intro idx hidx
    rw [hframe.2.2.2.1]
    exact hs idx (by rwa [hframe.1] at hidx)
  refine ⟨hagg, ?_, hvalid⟩
  rcases applyToCurrentAndAggregate_functions s upd with ⟨hnone, hfns⟩ | ⟨idx, hhead, hcase⟩
  · have hempty : s.scopeStack = [] := by
      cases hstk : s.scopeStack with
      | nil => rfl
      | cons a t => rw [hstk] at hnone; simp at hnone
    rw [hfns, if_pos hempty]
    omega
  · have hne : ¬ s.scopeStack = [] := by
      intro hemp
      rw [hemp] at hhead
      simp at hhead
    have hidxmem : idx ∈ s.scopeStack := List.mem_of_mem_head? (by rw [hhead]; rfl)
  -- a dangling current index is impossible under validity
    have hlt : idx < s.report.functions.length := hs idx hidxmem
    rcases hcase with ⟨hgnone, _⟩ | ⟨fr, hget, hset⟩
    · rw [List.getElem?_eq_none_iff] at hgnone
      omega
    · rw [hset, if_neg hne]
      have hsum := sum_map_set μ s.report.functions idx fr (upd fr) hget
      rw [hupd] at hsum
      omega

/-- The measure effect of processLloc: weight wl per logical-sloc amount. -/
theorem processLloc_measure (μ : FunctionReport → ℕ) (wl : ℕ)
    (hlloc : ∀ fr amount,
      μ { fr with sloc := { fr.sloc with logical := fr.sloc.logical + amount } }
        = μ fr + wl * amount)
    {Node : Type} (node : Node) (syn : SyntaxDesc Node) (s : AnalyserState)
    (hs : ValidStack s) :
    μ (processLloc s node syn).report.aggregate
      = μ s.report.aggregate + wl * nodeLlocAmount node syn
    ∧ ((processLloc s node syn).report.functions.map μ).sum
        = (s.report.functions.map μ).sum
          + (if s.scopeStack = [] then 0 else wl * nodeLlocAmount node syn)
    ∧ ValidStack (processLloc s node syn) := by
  unfold processLloc nodeLlocAmount
  cases hl : syn.lloc with
  | none => exact ⟨by simp, by simp, hs⟩
  | some a =>
      exact applyToCurrentAndAggregate_measure μ (wl * evalNumOrFn a node) _
        (fun fr => hlloc fr (evalNumOrFn a node)) s hs

/-- The measure effect of processCyclomatic: weight wc per cyclomatic
amount. -/
theorem processCyclomatic_measure (μ : FunctionReport → ℕ) (wc : ℕ)
    (hcyc : ∀ fr amount,
      μ { fr with cyclomatic := fr.cyclomatic + amount } = μ fr + wc * amount)
    {Node : Type} (node : Node) (syn : SyntaxDesc Node) (s : AnalyserState)
    (hs : ValidStack s) :
    μ (processCyclomatic s node syn).report.aggregate
      = μ s.report.aggregate + wc * nodeCyclomaticAmount node syn
    ∧ ((processCyclomatic s node syn).report.functions.map μ).sum
        = (s.report.functions.map μ).sum
          + (if s.scopeStack = [] then 0 else wc * nodeCyclomaticAmount node syn)
    ∧ ValidStack (processCyclomatic s node syn) := by
  unfold processCyclomatic nodeCyclomaticAmount
  cases hl : syn.cyclomatic with
  | none => exact ⟨by simp, by simp, hs⟩
  | some a =>
      exact applyToCurrentAndAggregate_measure μ (wc * evalNumOrFn a node) _
        (fun fr => hcyc fr (evalNumOrFn a node)) s hs

theorem nodeHalsteadCount_cons {Node : Type} (node : Node) (d : HalsteadItemDesc Node)
    (ds : List (HalsteadItemDesc Node)) :
    nodeHalsteadCount node (some (d :: ds))
      = (if passesFilter d node then 1 else 0) + nodeHalsteadCount node (some ds) := by
  show (List.filter (fun d => passesFilter d node) (d :: ds)).length = _
  rw [List.filter_cons]
  by_cases hp : passesFilter d node <;> simp [hp, nodeHalsteadCount] <;> omega

/-- The measure effect of one halsteadItemEncountered call. -/
theorem halsteadItemEncountered_measure (μ : FunctionReport → ℕ) (w : ℕ)
    (metric : HalsteadMetric)
    (hitem : ∀ fr id, μ (incrementHalsteadItemsOn fr metric id) = μ fr + w)
    (s : AnalyserState) (hs : ValidStack s) (id : String) :
    μ (halsteadItemEncountered s metric id).report.aggregate = μ s.report.aggregate + w
    ∧ ((halsteadItemEncountered s metric id).report.functions.map μ).sum
        = (s.report.functions.map μ).sum + (if s.scopeStack = [] then 0 else w)
    ∧ ValidStack (halsteadItemEncountered s metric id) :=
  applyToCurrentAndAggregate_measure μ w _ (fun fr => hitem fr id) s hs

/-- The measure effect of processHalsteadMetric: weight w per passing
descriptor item. -/
theorem processHalsteadMetric_measure (μ : FunctionReport → ℕ) (w : ℕ)
    (metric : HalsteadMetric)
    (hitem : ∀ fr id, μ (incrementHalsteadItemsOn fr metric id) = μ fr + w)
    {Node : Type} (node : Node) (items : Option (List (HalsteadItemDesc Node))) :
    ∀ s : AnalyserState, ValidStack s →
      μ (processHalsteadMetric s node items metric).report.aggregate
        = μ s.report.aggregate + w * nodeHalsteadCount node items
      ∧ ((processHalsteadMetric s node items metric).report.functions.map μ).sum
          = (s.report.functions.map μ).sum
            + (if s.scopeStack = [] then 0 else w * nodeHalsteadCount node items)
      ∧ ValidStack (processHalsteadMetric s node items metric) := by
  cases items with
  | none =>
      intro s hs
      exact ⟨by simp [processHalsteadMetric, nodeHalsteadCount], by
        simp [processHalsteadMetric, nodeHalsteadCount], hs⟩
  | some l =>
      induction l with
      | nil =>
          intro s hs
          exact ⟨by simp [processHalsteadMetric, nodeHalsteadCount], by
            simp [processHalsteadMetric, nodeHalsteadCount], hs⟩
      | cons d ds ih =>
          intro s hs
          have hcount := nodeHalsteadCount_cons node d ds
          have hfold : processHalsteadMetric s node (some (d :: ds)) metric
              = processHalsteadMetric
                  (if passesFilter d node
                   then halsteadItemEncountered s metric (evalIdentifier d node)
                   else s) node (some ds) metric := by
            simp [processHalsteadMetric]
          by_cases hp : passesFilter d node
      -- the item counts: one encounter, then the rest of the items
          · have henc := halsteadItemEncountered_measure μ w metric hitem s hs
              (evalIdentifier d node)
            have hstack : (halsteadItemEncountered s metric (evalIdentifier d node)).scopeStack
                = s.scopeStack :=
              (halsteadItemEncountered_frame s metric (evalIdentifier d node)).1
            have hrest := ih (halsteadItemEncountered s metric (evalIdentifier d node)) henc.2.2
            rw [hfold, if_pos hp]
            refine ⟨?_, ?_, hrest.2.2⟩
            · rw [hrest.1, henc.1, hcount, hp]
              simp
              ring
            · rw [hrest.2.1, henc.2.1, hstack, hcount, hp]
              by_cases hemp : s.scopeStack = [] <;> simp [hemp] <;> ring
          · have hrest := ih s hs
            rw [hfold, if_neg hp]
            refine ⟨?_, ?_, hrest.2.2⟩
            · rw [hrest.1, hcount]
              simp [hp]
            · rw [hrest.2.1, hcount]
              simp [hp]

/-- processDependencies leaves every function-report measure unchanged. -/
theorem processDependencies_measure {Node : Type} (s : AnalyserState) (node : Node)
    (syn : SyntaxDesc Node) :
    (processDependencies s node syn).report.aggregate = s.report.aggregate
    ∧ (processDependencies s node syn).report.functions = s.report.functions
    ∧ (processDependencies s node syn).scopeStack = s.scopeStack := by
  have h := processDependencies_frame s node syn
  exact ⟨h.2.2.1, h.2.1, h.1⟩

/-- The combined measure effect of one processNode call. -/
theorem processNode_measure (μ : FunctionReport → ℕ) (wl wc wops wopnds : ℕ)
    (hlloc : ∀ fr amount,
      μ { fr with sloc := { fr.sloc with logical := fr.sloc.logical + amount } }
        = μ fr + wl * amount)
    (hcyc : ∀ fr amount,
      μ { fr with cyclomatic := fr.cyclomatic + amount } = μ fr + wc * amount)
    (hops : ∀ fr id, μ (incrementHalsteadItemsOn fr .operators id) = μ fr + wops)
    (hopnds : ∀ fr id, μ (incrementHalsteadItemsOn fr .operands id) = μ fr + wopnds)
    {Node : Type} (node : Node) (syn : SyntaxDesc Node) (s : AnalyserState)
    (hs : ValidStack s) :
    μ (processNode s node syn).report.aggregate
      = μ s.report.aggregate
        + (wl * nodeLlocAmount node syn + wc * nodeCyclomaticAmount node syn
           + wops * nodeHalsteadCount node syn.operators
           + wopnds * nodeHalsteadCount node syn.operands)
    ∧ ((processNode s node syn).report.functions.map μ).sum
        = (s.report.functions.map μ).sum
          + (if s.scopeStack = [] then 0
             else wl * nodeLlocAmount node syn + wc * nodeCyclomaticAmount node syn
               + wops * nodeHalsteadCount node syn.operators
               + wopnds * nodeHalsteadCount node syn.operands)
    ∧ ValidStack (processNode s node syn)
    ∧ (processNode s node syn).scopeStack = s.scopeStack
    ∧ (processNode s node syn).report.functions.length = s.report.functions.length := by
  have h1 := processLloc_measure μ wl hlloc node syn s hs
  set s1 := processLloc s node syn with hs1
  have hstk1 : s1.scopeStack = s.scopeStack := (processLloc_frame s node syn).1
  have hlen1 : s1.report.functions.length = s.report.functions.length :=
    (processLloc_frame s node syn).2.2.2
  have h2 := processCyclomatic_measure μ wc hcyc node syn s1 h1.2.2
  set s2 := processCyclomatic s1 node syn with hs2
  have hstk2 : s2.scopeStack = s1.scopeStack := (processCyclomatic_frame s1 node syn).1
  have hlen2 : s2.report.functions.length = s1.report.functions.length :=
    (processCyclomatic_frame s1 node syn).2.2.2
  have h3 := processHalsteadMetric_measure μ wops .operators hops node syn.operators s2 h2.2.2
  set s3 := processHalsteadMetric s2 node syn.operators .operators with hs3
  have hstk3 : s3.scopeStack = s2.scopeStack :=
    (processHalsteadMetric_frame node syn.operators .operators s2).1
  have hlen3 : s3.report.functions.length = s2.report.functions.length :=
    (processHalsteadMetric_frame node syn.operators .operators s2).2.2.2
  have h4 := processHalsteadMetric_measure μ wopnds .operands hopnds node syn.operands s3 h3.2.2
  set s4 := processHalsteadMetric s3 node syn.operands .operands with hs4
  have hstk4 : s4.scopeStack = s3.scopeStack :=
    (processHalsteadMetric_frame node syn.operands .operands s3).1
  have hlen4 : s4.report.functions.length = s3.report.functions.length :=
    (processHalsteadMetric_frame node syn.operands .operands s3).2.2.2
  have h5 := processDependencies_measure s4 node syn
  have hlen5 : (processDependencies s4 node syn).report.functions.length
      = s4.report.functions.length := by rw [h5.2.1]
  have hpn : processNode s node syn = processDependencies s4 node syn := rfl
  have hvalid5 : ValidStack (processDependencies s4 node syn) := by
    intro idx hidx
    rw [hlen5]
    exact h4.2.2 idx (by rwa [h5.2.2] at hidx)
  rw [hpn]
  refine ⟨?_, ?_, hvalid5, ?_, ?_⟩
  · rw [h5.1, h4.1, h3.1, h2.1, h1.1]
    ring
  · rw [h5.2.1, h4.2.1, h3.2.1, h2.2.1, h1.2.1, hstk3, hstk2, hstk1]
    by_cases hemp : s.scopeStack = [] <;> simp [hemp] <;> ring
  · rw [h5.2.2, hstk4, hstk3, hstk2, hstk1]
  · rw [hlen5, hlen4, hlen3, hlen2, hlen1]

/-- The measure effect of pushScope: the new report contributes its creation
value b to the function sum and nothing to the aggregate (only params move
there). -/
theorem pushScope_measure (μ : FunctionReport → ℕ) (b : ℕ)
    (hcreate : ∀ name loc params, μ (createFunctionReport name loc params) = b)
    (hparams : ∀ fr p, μ { fr with params := fr.params + p } = μ fr)
    (s : AnalyserState) (hs : ValidStack s) (name : Option String)
    (loc : Option LocRange) (params : ℕ) :
    μ (pushScope s name loc params).report.aggregate = μ s.report.aggregate
    ∧ ((pushScope s name loc params).report.functions.map μ).sum
        = (s.report.functions.map μ).sum + b
    ∧ (pushScope s name loc params).report.functions.length
        = s.report.functions.length + 1
    ∧ ValidStack (pushScope s name loc params) := by
  refine ⟨hparams s.report.aggregate params, ?_, by simp [pushScope], ?_⟩
  · simp [pushScope, hcreate]
  · intro idx hidx
    have hmem : idx = s.report.functions.length ∨ idx ∈ s.scopeStack := by
      simpa [pushScope] using hidx
    have hlen : (pushScope s name loc params).report.functions.length
        = s.report.functions.length + 1 := by simp [pushScope]
    rw [hlen]
    rcases hmem with rfl | hmem
    · omega
    · have := hs idx hmem
      omega

/-- The measure effect of popScope: nothing moves. -/
theorem popScope_measure (s : AnalyserState) (hs : ValidStack s) :
    (popScope s).report = s.report ∧ ValidStack (popScope s) := by
  refine ⟨rfl, fun idx hidx => hs idx ?_⟩
  exact List.mem_of_mem_tail hidx

/-- topLevelAmount only depends on the pointwise values of the amount
function. -/
theorem topLevelAmount_congr {Node : Type} (f g : Node → SyntaxDesc Node → ℕ)
    (h : ∀ node syn, f node syn = g node syn) :
    ∀ (events : List (WalkEvent Node)) (s : AnalyserState),
      topLevelAmount f s events = topLevelAmount g s events := by
  intro events
  induction events with
  | nil => intro s; rfl
  | cons e evs ih => intro s; cases e <;> simp [topLevelAmount, ih, h]

/-- The walk-wide balance: the aggregate's gain over a walk equals the
functions' gain plus the top-level contributions, with a creation baseline b
per function.  F is the per-node amount of the measure μ. -/
theorem runWalk_balance (μ : FunctionReport → ℕ) (b wl wc wops wopnds : ℕ)
    (hcreate : ∀ name loc params, μ (createFunctionReport name loc params) = b)
    (hparams : ∀ fr p, μ { fr with params := fr.params + p } = μ fr)
    (hlloc : ∀ fr amount,
      μ { fr with sloc := { fr.sloc with logical := fr.sloc.logical + amount } }
        = μ fr + wl * amount)
    (hcyc : ∀ fr amount,
      μ { fr with cyclomatic := fr.cyclomatic + amount } = μ fr + wc * amount)
    (hops : ∀ fr id, μ (incrementHalsteadItemsOn fr .operators id) = μ fr + wops)
    (hopnds : ∀ fr id, μ (incrementHalsteadItemsOn fr .operands id) = μ fr + wopnds)
    {Node : Type} (F : Node → SyntaxDesc Node → ℕ)
    (hF : ∀ node syn, F node syn
      = wl * nodeLlocAmount node syn + wc * nodeCyclomaticAmount node syn
        + wops * nodeHalsteadCount node syn.operators
        + wopnds * nodeHalsteadCount node syn.operands)
    (events : List (WalkEvent Node)) :
    ∀ s : AnalyserState, ValidStack s →
      μ (runWalk s events).report.aggregate + (s.report.functions.map μ).sum
          + b * (runWalk s events).report.functions.length
        = μ s.report.aggregate + ((runWalk s events).report.functions.map μ).sum
          + b * s.report.functions.length + topLevelAmount F s events := by
  induction events with
  | nil => intro s hs; simp [runWalk, topLevelAmount]
  | cons e evs ih =>
      intro s hs
      have hrun : runWalk s (e :: evs) = runWalk (step s e) evs := rfl
      rw [hrun]
      cases e with
      | createScope name loc params =>
          obtain ⟨hp1, hp2, hp3, hp4⟩ := pushScope_measure μ b hcreate hparams s hs name loc params
          have ihe := ih (pushScope s name loc params) hp4
          have htl : topLevelAmount F s (WalkEvent.createScope name loc params :: evs)
              = topLevelAmount F (pushScope s name loc params) evs := by
            simp [topLevelAmount, step]
          rw [htl]
          simp only [step]
          rw [hp1, hp2, hp3] at ihe
          simp only [Nat.mul_succ] at ihe
          omega
      | popScope =>
          obtain ⟨hp1, hp2⟩ := popScope_measure s hs
          have ihe := ih (popScope s) hp2
          have htl : topLevelAmount F s (WalkEvent.popScope :: evs)
              = topLevelAmount F (popScope s) evs := by
            simp [topLevelAmount, step]
          rw [htl]
          simp only [step]
          rw [hp1] at ihe
          omega
      | processNode node syn =>
          obtain ⟨hp1, hp2, hp3, hp4, hp5⟩ := processNode_measure μ wl wc wops wopnds
            hlloc hcyc hops hopnds node syn s hs
          have ihe := ih (processNode s node syn) hp3
          have htl : topLevelAmount F s (WalkEvent.processNode node syn :: evs)
              = (if s.scopeStack = [] then F node syn else 0)
                + topLevelAmount F (processNode s node syn) evs := by
            simp only [topLevelAmount, step]
          rw [htl, hF node syn]
          simp only [step]
          rw [hp5] at ihe
          by_cases hemp : s.scopeStack = []
          · rw [if_pos hemp]
            rw [if_pos hemp] at hp2
            omega
          · rw [if_neg hemp]
            rw [if_neg hemp] at hp2
            omega

/-- The initial scope stack is empty, hence valid. -/
theorem validStack_initial (astLoc : Option LocRange) : ValidStack (initialState astLoc) :=
  fun idx h => absurd h (by simp [initialState])

theorem createFunctionReport_operators_total (name : Option String)
    (loc : Option LocRange) (params : ℕ) :
    (createFunctionReport name loc params).halstead.operators.total = 0 := by
  cases loc <;> rfl

theorem createFunctionReport_operands_total (name : Option String)
    (loc : Option LocRange) (params : ℕ) :
    (createFunctionReport name loc params).halstead.operands.total = 0 := by
  cases loc <;> rfl

theorem createFunctionReport_logical (name : Option String)
    (loc : Option LocRange) (params : ℕ) :
    (createFunctionReport name loc params).sloc.logical = 0 := by
  cases loc <;> rfl

theorem createFunctionReport_cyclomatic (name : Option String)
    (loc : Option LocRange) (params : ℕ) :
    (createFunctionReport name loc params).cyclomatic = 1 := by
  cases loc <;> rfl

/-- C2: after any walk, the aggregate's Halstead operator total is the sum
of the function reports' operator totals plus the operator tokens recorded
while no function was current; likewise for operands and logical sloc; for
cyclomatic complexity the same balance holds modulo the baseline 1 each
function report starts with (and the aggregate's own starting 1). -/
theorem C2_aggregate_equals_functions_plus_toplevel (Node : Type)
    (astLoc : Option LocRange) (events : List (WalkEvent Node)) :
    (runWalk (initialState astLoc) events).report.aggregate.halstead.operators.total
      = (((runWalk (initialState astLoc) events).report.functions.map
            (fun fr => fr.halstead.operators.total)).sum)
        + topLevelAmount (fun node syn => nodeHalsteadCount node syn.operators)
            (initialState astLoc) events
    ∧ (runWalk (initialState astLoc) events).report.aggregate.halstead.operands.total
      = (((runWalk (initialState astLoc) events).report.functions.map
            (fun fr => fr.halstead.operands.total)).sum)
        + topLevelAmount (fun node syn => nodeHalsteadCount node syn.operands)
            (initialState astLoc) events
    ∧ (runWalk (initialState astLoc) events).report.aggregate.sloc.logical
      = (((runWalk (initialState astLoc) events).report.functions.map
            (fun fr => fr.sloc.logical)).sum)
        + topLevelAmount (fun node syn => nodeLlocAmount node syn)
            (initialState astLoc) events
    ∧ (runWalk (initialState astLoc) events).report.aggregate.cyclomatic
        + (runWalk (initialState astLoc) events).report.functions.length
      = (((runWalk (initialState astLoc) events).report.functions.map
            (fun fr => fr.cyclomatic)).sum)
        + topLevelAmount (fun node syn => nodeCyclomaticAmount node syn)
            (initialState astLoc) events + 1 := by
  have hvalid := validStack_initial astLoc
  have hinitfns : (initialState astLoc).report.functions = [] := rfl
  refine ⟨?_, ?_, ?_, ?_⟩
  · have hbal := runWalk_balance (fun fr => fr.halstead.operators.total) 0 0 0 1 0
      (fun name loc params => createFunctionReport_operators_total name loc params)
      (fun fr p => rfl)
      (fun fr amount => by simp)
      (fun fr amount => by simp)
      (fun fr id => by
        simp [incrementHalsteadItemsOn, HalsteadState.setItem, HalsteadState.item,
          incrementHalsteadItems, incrementTotalHalsteadItems,
          incrementDistinctHalsteadItems_total])
      (fun fr id => by
        simp [incrementHalsteadItemsOn, HalsteadState.setItem, HalsteadState.item,
          incrementHalsteadItems, incrementTotalHalsteadItems])
      (fun node syn => nodeHalsteadCount node syn.operators)
      (fun node syn => by beta_reduce; omega) events (initialState astLoc) hvalid
    beta_reduce at hbal
    rw [show (initialState astLoc).report.aggregate.halstead.operators.total
        = (createFunctionReport none astLoc 0).halstead.operators.total from rfl,
      createFunctionReport_operators_total, hinitfns] at hbal
    simpa using hbal
  · have hbal := runWalk_balance (fun fr => fr.halstead.operands.total) 0 0 0 0 1
      (fun name loc params => createFunctionReport_operands_total name loc params)
      (fun fr p => rfl)
      (fun fr amount => by simp)
      (fun fr amount => by simp)
      (fun fr id => by
        simp [incrementHalsteadItemsOn, HalsteadState.setItem, HalsteadState.item,
          incrementHalsteadItems, incrementTotalHalsteadItems])
      (fun fr id => by
        simp [incrementHalsteadItemsOn, HalsteadState.setItem, HalsteadState.item,
          incrementHalsteadItems, incrementTotalHalsteadItems,
          incrementDistinctHalsteadItems_total])
      (fun node syn => nodeHalsteadCount node syn.operands)
      (fun node syn => by beta_reduce; omega) events (initialState astLoc) hvalid
    beta_reduce at hbal
    rw [show (initialState astLoc).report.aggregate.halstead.operands.total
        = (createFunctionReport none astLoc 0).halstead.operands.total from rfl,
      createFunctionReport_operands_total, hinitfns] at hbal
    simpa using hbal
  · have hbal := runWalk_balance (fun fr => fr.sloc.logical) 0 1 0 0 0
      (fun name loc params => createFunctionReport_logical name loc params)
      (fun fr p => rfl)
      (fun fr amount => by simp)
      (fun fr amount => by simp)
      (fun fr id => by
        simp [incrementHalsteadItemsOn])
      (fun fr id => by
        simp [incrementHalsteadItemsOn])
      (fun node syn => nodeLlocAmount node syn)
      (fun node syn => by beta_reduce; omega) events (initialState astLoc) hvalid
    beta_reduce at hbal
    rw [show (initialState astLoc).report.aggregate.sloc.logical
        = (createFunctionReport none astLoc 0).sloc.logical from rfl,
      createFunctionReport_logical, hinitfns] at hbal
    simpa using hbal
  · have hbal := runWalk_balance (fun fr => fr.cyclomatic) 1 0 1 0 0
      (fun name loc params => createFunctionReport_cyclomatic name loc params)
      (fun fr p => rfl)
      (fun fr amount => by simp)
      (fun fr amount => by simp)
      (fun fr id => by
        simp [incrementHalsteadItemsOn])
      (fun fr id => by
        simp [incrementHalsteadItemsOn])
      (fun node syn => nodeCyclomaticAmount node syn)
      (fun node syn => by beta_reduce; omega) events (initialState astLoc) hvalid
    beta_reduce at hbal
    rw [show (initialState astLoc).report.aggregate.cyclomatic
        = (createFunctionReport none astLoc 0).cyclomatic from rfl,
      createFunctionReport_cyclomatic, hinitfns] at hbal
    simp only [List.map_nil, List.sum_nil, List.length_nil, one_mul, add_zero,
      zero_add, Nat.mul_zero] at hbal
    omega

/-! Frame behaviour of function reports (claim C4).  During the walk a
report is written only through the current (top-of-stack) index; after the
walk calculateMetrics revisits every report, popped ones included, to fill
in the derived fields. -/

/-- The shared update writes no slot other than the current one. -/
theorem applyToCurrentAndAggregate_getElem (s : AnalyserState)
    (upd : FunctionReport → FunctionReport) (idx : ℕ)
    (hne : s.scopeStack.head? ≠ some idx) :
    (applyToCurrentAndAggregate s upd).report.functions[idx]?
      = s.report.functions[idx]? := by
  rcases applyToCurrentAndAggregate_functions s upd with ⟨_, hfns⟩ | ⟨i, hhead, hcase⟩
  · rw [hfns]
  · have hne2 : i ≠ idx := by
      intro h
      exact hne (h ▸ hhead)
    rcases hcase with ⟨_, hfns⟩ | ⟨fr, hget, hset⟩
    · rw [hfns]
    · rw [hset]
      exact List.getElem?_set_ne hne2

theorem processLloc_getElem {Node : Type} (s : AnalyserState) (node : Node)
    (syn : SyntaxDesc Node) (idx : ℕ) (hne : s.scopeStack.head? ≠ some idx) :
    (processLloc s node syn).report.functions[idx]? = s.report.functions[idx]? := by
  unfold processLloc
  cases syn.lloc with
  | none => rfl
  | some a => exact applyToCurrentAndAggregate_getElem s _ idx hne

theorem processCyclomatic_getElem {Node : Type} (s : AnalyserState) (node : Node)
    (syn : SyntaxDesc Node) (idx : ℕ) (hne : s.scopeStack.head? ≠ some idx) :
    (processCyclomatic s node syn).report.functions[idx]? = s.report.functions[idx]? := by
  unfold processCyclomatic
  cases syn.cyclomatic with
  | none => rfl
  | some a => exact applyToCurrentAndAggregate_getElem s _ idx hne

theorem processHalsteadMetric_getElem {Node : Type} (node : Node)
    (items : Option (List (HalsteadItemDesc Node))) (metric : HalsteadMetric) :
    ∀ (s : AnalyserState) (idx : ℕ), s.scopeStack.head? ≠ some idx →
      (processHalsteadMetric s node items metric).report.functions[idx]?
        = s.report.functions[idx]? := by
  cases items with
  | none => intro s idx hne; rfl
  | some l =>
      induction l with
      | nil => intro s idx hne; rfl
      | cons d ds ih =>
          intro s idx hne
          have hfold : processHalsteadMetric s node (some (d :: ds)) metric
              = processHalsteadMetric
                  (if passesFilter d node
                   then halsteadItemEncountered s metric (evalIdentifier d node)
                   else s) node (some ds) metric := by
            simp [processHalsteadMetric]
          rw [hfold]
          by_cases hp : passesFilter d node
          · rw [if_pos hp]
            have hstk : (halsteadItemEncountered s metric (evalIdentifier d node)).scopeStack
                = s.scopeStack :=
              (halsteadItemEncountered_frame s metric (evalIdentifier d node)).1
            have h1 := ih (halsteadItemEncountered s metric (evalIdentifier d node)) idx
              (by rw [hstk]; exact hne)
            rw [h1]
            exact applyToCurrentAndAggregate_getElem s _ idx hne
          · rw [if_neg hp]
            exact ih s idx hne

/-- One processNode call never writes a slot other than the current one
(nor any slot at all while no function is current). -/
theorem processNode_getElem {Node : Type} (s : AnalyserState) (node : Node)
    (syn : SyntaxDesc Node) (idx : ℕ) (hne : s.scopeStack.head? ≠ some idx) :
    (processNode s node syn).report.functions[idx]? = s.report.functions[idx]? := by
  have h1 := processLloc_getElem s node syn idx hne
  have hstk1 := (processLloc_frame s node syn).1
  have h2 := processCyclomatic_getElem (processLloc s node syn) node syn idx
    (by rw [hstk1]; exact hne)
  have hstk2 := (processCyclomatic_frame (processLloc s node syn) node syn).1
  have h3 := processHalsteadMetric_getElem node syn.operators .operators
    (processCyclomatic (processLloc s node syn) node syn) idx
    (by rw [hstk2, hstk1]; exact hne)
  have hstk3 := (processHalsteadMetric_frame node syn.operators .operators
    (processCyclomatic (processLloc s node syn) node syn)).1
  have h4 := processHalsteadMetric_getElem node syn.operands .operands
    (processHalsteadMetric (processCyclomatic (processLloc s node syn) node syn)
      node syn.operators .operators) idx
    (by rw [hstk3, hstk2, hstk1]; exact hne)
  have h5 := (processDependencies_frame
    (processHalsteadMetric (processHalsteadMetric
      (processCyclomatic (processLloc s node syn) node syn)
      node syn.operators .operators) node syn.operands .operands) node syn).2.1
  show (processDependencies _ node syn).report.functions[idx]? = _
  rw [h5, h4, h3, h2, h1]

/-- A popped index stays popped and its slot stays untouched for the rest of
the walk. -/
theorem runWalk_frame {Node : Type} (events : List (WalkEvent Node)) :
    ∀ (s : AnalyserState) (idx : ℕ), ValidStack s →
      idx < s.report.functions.length → idx ∉ s.scopeStack →
      (runWalk s events).report.functions[idx]? = s.report.functions[idx]?
      ∧ idx ∉ (runWalk s events).scopeStack := by
  induction events with
  | nil => exact fun s idx _ _ hout => ⟨rfl, hout⟩
  | cons e evs ih =>
      intro s idx hs hlt hout
      have hrun : runWalk s (e :: evs) = runWalk (step s e) evs := rfl
      rw [hrun]
      have hhead : s.scopeStack.head? ≠ some idx := by
        intro h
        exact hout (List.mem_of_mem_head? (by rw [h]; rfl))
      cases e with
      | createScope name loc params =>
          have hvalid := (pushScope_measure (fun _ => 0) 0 (fun _ _ _ => rfl)
            (fun _ _ => rfl) s hs name loc params).2.2.2
          have hget : (pushScope s name loc params).report.functions[idx]?
              = s.report.functions[idx]? := by
            show (s.report.functions ++ [createFunctionReport name loc params])[idx]?
              = s.report.functions[idx]?
            exact List.getElem?_append_left hlt
          have hlen : idx < (pushScope s name loc params).report.functions.length := by
            have : (pushScope s name loc params).report.functions.length
                = s.report.functions.length + 1 := by simp [pushScope]
            omega
          have hout2 : idx ∉ (pushScope s name loc params).scopeStack := by
            intro hmem
            have : idx = s.report.functions.length ∨ idx ∈ s.scopeStack := by
              simpa [pushScope] using hmem
            rcases this with h | h
            · omega
            · exact hout h
          have := ih (pushScope s name loc params) idx hvalid hlen hout2
          exact ⟨by rw [show step s (WalkEvent.createScope name loc params)
              = pushScope s name loc params from rfl, this.1, hget],
            by rw [show step s (WalkEvent.createScope name loc params)
              = pushScope s name loc params from rfl]; exact this.2⟩
      | popScope =>
          have hvalid := (popScope_measure s hs).2
          have hout2 : idx ∉ (popScope s).scopeStack := by
            intro hmem
            exact hout (List.mem_of_mem_tail hmem)
          have := ih (popScope s) idx hvalid hlt hout2
          exact ⟨this.1, this.2⟩
      | processNode node syn =>
          obtain ⟨hp1, hp2, hp3, hp4, hp5⟩ := processNode_measure (fun _ => 0) 0 0 0 0
            (fun _ _ => by simp) (fun _ _ => by simp) (fun _ _ => by simp [incrementHalsteadItemsOn])
            (fun _ _ => by simp [incrementHalsteadItemsOn]) node syn s hs
          have hget := processNode_getElem s node syn idx hhead
          have hout2 : idx ∉ (processNode s node syn).scopeStack := by
            rw [hp4]
            exact hout
          have hlen2 : idx < (processNode s node syn).report.functions.length := by
            rw [hp5]
            exact hlt
          have := ih (processNode s node syn) idx hp3 hlen2 hout2
          exact ⟨by rw [show step s (WalkEvent.processNode node syn)
              = processNode s node syn from rfl, this.1, hget],
            by rw [show step s (WalkEvent.processNode node syn)
              = processNode s node syn from rfl]; exact this.2⟩

/-- The function list of a successful calculateMetrics is the finalisation
of the input's function list. -/
theorem calculateMetrics_functions (m : ModuleState) (nm : Bool) (out : FinalModule)
    (h : calculateMetrics m nm = Except.ok out) :
    out.functions = m.functions.map finalizeFunctionReport := by
  simp only [calculateMetrics] at h
  split at h
  · exact absurd h (by simp)
  · next mi heq =>
      have h2 := (Except.ok.injEq _ _).mp h
      rw [← h2]

/-- Finalisation writes only the derived fields: every walk-accrued field of
a function report survives calculateMetrics unchanged, while
cyclomaticDensity is (re)written. -/
theorem finalizeFunctionReport_fields (fr : FunctionReport) :
    (finalizeFunctionReport fr).name = fr.name
    ∧ (finalizeFunctionReport fr).params = fr.params
    ∧ (finalizeFunctionReport fr).cyclomatic = fr.cyclomatic
    ∧ (finalizeFunctionReport fr).line = fr.line
    ∧ (finalizeFunctionReport fr).sloc = fr.sloc
    ∧ (finalizeFunctionReport fr).halstead.operators = fr.halstead.operators
    ∧ (finalizeFunctionReport fr).halstead.operands = fr.halstead.operands
    ∧ (finalizeFunctionReport fr).cyclomaticDensity
        = some ((fr.cyclomatic : ℝ) / fr.sloc.logical * 100) := by
  refine ⟨rfl, rfl, rfl, rfl, rfl, ?_, ?_, rfl⟩
  · show (calculateHalsteadMetrics (calculateCyclomaticDensity fr).halstead).operators
      = fr.halstead.operators
    simp only [calculateHalsteadMetrics, nilHalsteadMetrics, calculateCyclomaticDensity]
    split <;> rfl
  · show (calculateHalsteadMetrics (calculateCyclomaticDensity fr).halstead).operands
      = fr.halstead.operands
    simp only [calculateHalsteadMetrics, nilHalsteadMetrics, calculateCyclomaticDensity]
    split <;> rfl

/-- Stack validity is an invariant of the whole walk. -/
theorem validStack_runWalk {Node : Type} (events : List (WalkEvent Node)) :
    ∀ s : AnalyserState, ValidStack s → ValidStack (runWalk s events) := by
  induction events with
  | nil => exact fun s hs => hs
  | cons e evs ih =>
      intro s hs
      have hrun : runWalk s (e :: evs) = runWalk (step s e) evs := rfl
      rw [hrun]
      apply ih
      cases e with
      | createScope name loc params =>
          exact (pushScope_measure (fun _ => 0) 0 (fun _ _ _ => rfl) (fun _ _ => rfl)
            s hs name loc params).2.2.2
      | popScope => exact (popScope_measure s hs).2
      | processNode node syn =>
          exact (processNode_measure (fun _ => 0) 0 0 0 0 (fun _ _ => by simp)
            (fun _ _ => by simp) (fun _ _ => by simp) (fun _ _ => by simp)
            node syn s hs).2.2.1

/-- The per-function cyclomatic densities carried by an analyse result. -/
noncomputable def finalFunctionDensities (r : Except String FinalModule) : List (Option ℝ) :=
  match r with
  | .ok out => out.functions.map (fun fr => fr.cyclomaticDensity)
  | .error _ => []

/-- Counterexample to C4 as stated: in the bigLloc walk the only function is
popped before the walk ends and its cyclomaticDensity is still unset, yet
the report analyse returns carries a set cyclomaticDensity for it - the
popped report was mutated by calculateMetrics during the remainder of
analyse. -/
theorem C4_mutation_after_pop_counterexample :
    0 ∉ (runWalk (initialState none) bigLlocEvents).scopeStack
    ∧ ((runWalk (initialState none) bigLlocEvents).report.functions.map
        (fun fr => fr.cyclomaticDensity)) = [none]
    ∧ finalFunctionDensities (@analyse Unit none bigLlocEvents false)
        = [some (((1 : ℕ) : ℝ) / ((2 ^ 100 : ℕ) : ℝ) * 100)] := by
  have hstk : (runWalk (initialState none) bigLlocEvents).scopeStack = [] := rfl
  have hana : @analyse Unit none bigLlocEvents false = calculateMetrics bigLlocModule false := by
    unfold analyse
    rw [bigLloc_walk]
  refine ⟨by rw [hstk]; simp, ?_, ?_⟩
  · rw [bigLloc_walk]
    simp [bigLlocModule, bigLlocFunctionReport]
  · rw [hana, bigLloc_metrics]
    simp [finalFunctionDensities, bigLlocFinal, finalizeFunctionReport,
      calculateCyclomaticDensity, bigLlocFunctionReport]

/-- C4 amended: during the walk a FunctionReport is mutated only while it is
the top of the scope stack - a popped index keeps its exact report for the
rest of the walk, and a processNode call leaves every non-current slot
unchanged - but after the walk calculateMetrics rewrites every function
report, popped included: it sets the derived cyclomaticDensity (and the
Halstead scalars) while preserving all walk-accrued fields. -/
theorem C4_amended_frame_behaviour (Node : Type) (astLoc : Option LocRange)
    (events1 events2 : List (WalkEvent Node)) (idx : ℕ) (s : AnalyserState)
    (node : Node) (syn : SyntaxDesc Node) (idx2 : ℕ) (m : ModuleState) (nm : Bool)
    (out : FinalModule) (idx3 : ℕ) (fr : FunctionReport)
    (h1 : idx < (runWalk (initialState astLoc) events1).report.functions.length)
    (h2 : idx ∉ (runWalk (initialState astLoc) events1).scopeStack)
    (h3 : s.scopeStack.head? ≠ some idx2)
    (h4 : calculateMetrics m nm = Except.ok out)
    (h5 : m.functions[idx3]? = some fr) :
    ((runWalk (runWalk (initialState astLoc) events1) events2).report.functions[idx]?
        = (runWalk (initialState astLoc) events1).report.functions[idx]?
      ∧ idx ∉ (runWalk (runWalk (initialState astLoc) events1) events2).scopeStack)
    ∧ (processNode s node syn).report.functions[idx2]? = s.report.functions[idx2]?
    ∧ (out.functions[idx3]? = some (finalizeFunctionReport fr)
      ∧ (finalizeFunctionReport fr).name = fr.name
      ∧ (finalizeFunctionReport fr).params = fr.params
      ∧ (finalizeFunctionReport fr).cyclomatic = fr.cyclomatic
      ∧ (finalizeFunctionReport fr).sloc = fr.sloc
      ∧ (finalizeFunctionReport fr).halstead.operators = fr.halstead.operators
      ∧ (finalizeFunctionReport fr).halstead.operands = fr.halstead.operands
      ∧ (finalizeFunctionReport fr).cyclomaticDensity
          = some ((fr.cyclomatic : ℝ) / fr.sloc.logical * 100)) := by
  have hvalid := validStack_runWalk events1 (initialState astLoc) (validStack_initial astLoc)
  have hfields := finalizeFunctionReport_fields fr
  refine ⟨runWalk_frame events2 _ idx hvalid h1 h2,
    processNode_getElem s node syn idx2 h3, ?_,
    hfields.1, hfields.2.1, hfields.2.2.1, hfields.2.2.2.2.1,
    hfields.2.2.2.2.2.1, hfields.2.2.2.2.2.2.1, hfields.2.2.2.2.2.2.2⟩
  rw [calculateMetrics_functions m nm out h4]
  rw [List.getElem?_map, h5]
  rfl

/-- Witness for the amended C4: a pushed-and-popped function slot survives a
later top-level node untouched during the walk, and calculateMetrics on the
bigLloc module rewrites only the derived fields of its popped function. -/
theorem C4_amended_frame_behaviour_witness :
    ((runWalk (runWalk (initialState none)
          ([WalkEvent.createScope none none 0, WalkEvent.popScope] : List (WalkEvent Unit)))
          [WalkEvent.processNode () { lloc := some (.num 1) }]).report.functions[0]?
        = (runWalk (initialState none)
            ([WalkEvent.createScope none none 0,
              WalkEvent.popScope] : List (WalkEvent Unit))).report.functions[0]?
      ∧ 0 ∉ (runWalk (runWalk (initialState none)
          ([WalkEvent.createScope none none 0, WalkEvent.popScope] : List (WalkEvent Unit)))
          [WalkEvent.processNode () { lloc := some (.num 1) }]).scopeStack)
    ∧ (processNode (initialState none) () ({} : SyntaxDesc Unit)).report.functions[0]?
        = (initialState none).report.functions[0]?
    ∧ (bigLlocFinal.functions[0]? = some (finalizeFunctionReport bigLlocFunctionReport)
      ∧ (finalizeFunctionReport bigLlocFunctionReport).name = bigLlocFunctionReport.name
      ∧ (finalizeFunctionReport bigLlocFunctionReport).params = bigLlocFunctionReport.params
      ∧ (finalizeFunctionReport bigLlocFunctionReport).cyclomatic
          = bigLlocFunctionReport.cyclomatic
      ∧ (finalizeFunctionReport bigLlocFunctionReport).sloc = bigLlocFunctionReport.sloc
      ∧ (finalizeFunctionReport bigLlocFunctionReport).halstead.operators
          = bigLlocFunctionReport.halstead.operators
      ∧ (finalizeFunctionReport bigLlocFunctionReport).halstead.operands
          = bigLlocFunctionReport.halstead.operands
      ∧ (finalizeFunctionReport bigLlocFunctionReport).cyclomaticDensity
          = some ((bigLlocFunctionReport.cyclomatic : ℝ)
              / bigLlocFunctionReport.sloc.logical * 100)) :=
  C4_amended_frame_behaviour Unit none
    [WalkEvent.createScope none none 0, WalkEvent.popScope]
    [WalkEvent.processNode () { lloc := some (.num 1) }] 0
    (initialState none) () ({} : SyntaxDesc Unit) 0
    bigLlocModule false bigLlocFinal 0 bigLlocFunctionReport
    (by decide) (by decide) (by decide) bigLloc_metrics rfl

/-! The visibility matrix is the transitive closure (claim C1).  The
in-place Floyd-Warshall relaxation leaves a cell finite exactly when the
start equals the end (the diagonal starts at 1) or a directed path of one or
more edges connects them. -/

/-- One relaxation never increases any cell. -/
theorem fwUpdate_le (D : DistM) (k i j p q : ℕ) : fwUpdate D k i j p q ≤ D p q := by
  unfold fwUpdate
  by_cases hc : D i k + D k j < D i j
  · rw [if_pos hc]
    by_cases hpq : p = i ∧ q = j
    · rw [if_pos hpq]
      rcases hpq with ⟨rfl, rfl⟩
      exact le_of_lt hc
    · rw [if_neg hpq]
  · rw [if_neg hc]

/-- A fold of cell-nonincreasing steps is cell-nonincreasing. -/
theorem foldl_le_of_step_le {α : Type} (f : DistM → α → DistM)
    (hf : ∀ (D : DistM) (x : α) (p q : ℕ), f D x p q ≤ D p q) (l : List α) :
    ∀ (D : DistM) (p q : ℕ), (l.foldl f D) p q ≤ D p q := by
  induction l with
  | nil => exact fun D p q => le_refl _
  | cons x xs ih =>
      intro D p q
      exact (ih (f D x) p q).trans (hf D x p q)

theorem fwRow_le (D : DistM) (n k i p q : ℕ) : fwRow D n k i p q ≤ D p q :=
  foldl_le_of_step_le _ (fun D x p q => fwUpdate_le D k i x p q) (List.range n) D p q

theorem fwPass_le (D : DistM) (n k p q : ℕ) : fwPass D n k p q ≤ D p q :=
  foldl_le_of_step_le _ (fun D x p q => fwRow_le D n k x p q) (List.range n) D p q

theorem floydWarshall_le (n : ℕ) (D : DistM) (p q : ℕ) :
    floydWarshall n D p q ≤ D p q :=
  foldl_le_of_step_le _ (fun D x p q => fwPass_le D n x p q) (List.range n) D p q

/-- Soundness invariant: a finite cell means equal endpoints or a path. -/
def Sound (A : List (List ℕ)) (D : DistM) : Prop :=
  ∀ i j, D i j < ⊤ → i = j ∨ Reaches A i j

theorem sound_fwUpdate (A : List (List ℕ)) (D : DistM) (k i j : ℕ) (hD : Sound A D) :
    Sound A (fwUpdate D k i j) := by
  intro p q hpq
  unfold fwUpdate at hpq
  by_cases hc : D i k + D k j < D i j
  · rw [if_pos hc] at hpq
    by_cases hpq2 : p = i ∧ q = j
    · rw [if_pos hpq2] at hpq
      rcases hpq2 with ⟨rfl, rfl⟩
      rw [WithTop.add_lt_top] at hpq
      rcases hD p k hpq.1 with rfl | h1
      · exact hD p q hpq.2
      · rcases hD k q hpq.2 with rfl | h2
        · exact Or.inr h1
        · exact Or.inr (h1.trans h2)
    · rw [if_neg hpq2] at hpq
      exact hD p q hpq
  · rw [if_neg hc] at hpq
    exact hD p q hpq

/-- A fold of invariant-preserving steps preserves the invariant. -/
theorem foldl_preserves {α : Type} (P : DistM → Prop) (f : DistM → α → DistM)
    (hf : ∀ (D : DistM) (x : α), P D → P (f D x)) (l : List α) :
    ∀ D : DistM, P D → P (l.foldl f D) := by
  induction l with
  | nil => exact fun D hD => hD
  | cons x xs ih => exact fun D hD => ih (f D x) (hf D x hD)

theorem sound_floydWarshall (A : List (List ℕ)) (n : ℕ) (D : DistM) (hD : Sound A D) :
    Sound A (floydWarshall n D) := by
  refine foldl_preserves (Sound A) _ (fun D k hk => ?_) (List.range n) D hD
  refine foldl_preserves (Sound A) _ (fun D i hi => ?_) (List.range n) D hk
  exact foldl_preserves (Sound A) _ (fun D j hj => sound_fwUpdate A D k i j hj)
    (List.range n) D hi

/-- A square matrix in list form: every row is as long as the list. -/
def SquareMatrix (A : List (List ℕ)) : Prop :=
  ∀ row ∈ A, row.length = A.length

/-- An edge of a square matrix runs between in-range indices. -/
theorem edge_lt (A : List (List ℕ)) (hA : SquareMatrix A) (i j : ℕ) (he : edge A i j) :
    i < A.length ∧ j < A.length := by
  unfold edge at he
  cases hi : A[i]? with
  | none =>
      exfalso
      apply he
      unfold matrixEntry
      rw [hi]
      rfl
  | some row =>
      have hme : matrixEntry A i j = row[j]? := by
        unfold matrixEntry
        rw [hi]
        rfl
      cases hj : row[j]? with
      | none =>
          exfalso
          apply he
          rw [hme, hj]
          rfl
      | some v =>
          have h1 : i < A.length := by
            by_contra hcon
            rw [List.getElem?_eq_none (by omega)] at hi
            exact Option.noConfusion hi
          have h2 : j < row.length := by
            by_contra hcon
            rw [List.getElem?_eq_none (by omega)] at hj
            exact Option.noConfusion hj
          have heq : A[i] = row := by
            have h3 := List.getElem?_eq_getElem h1
            rw [hi] at h3
            exact (Option.some.inj h3).symm
          exact ⟨h1, (hA row (List.mem_iff_getElem.mpr ⟨i, h1, heq⟩)) ▸ h2⟩

/-- Both endpoints of a path in a square matrix are in range. -/
theorem pathAmong_lt (A : List (List ℕ)) (hA : SquareMatrix A) (S : List ℕ) (i j : ℕ)
    (hp : PathAmong A S i j) : i < A.length ∧ j < A.length := by
  induction hp with
  | single h => exact edge_lt A hA _ _ h
  | cons h _ _ ih => exact ⟨(edge_lt A hA _ _ h).1, ih.2⟩

/-- A path among S ++ [k] is a path among S, or passes through k and splits
into two paths among S. -/
theorem pathAmong_append_singleton (A : List (List ℕ)) (S : List ℕ) (k i j : ℕ)
    (hp : PathAmong A (S ++ [k]) i j) :
    PathAmong A S i j ∨ (PathAmong A S i k ∧ PathAmong A S k j) := by
  induction hp with
  | single h => exact Or.inl (.single h)
  | @cons a m b h hmem _ ih =>
      rcases List.mem_append.mp hmem with hmS | hmk
      · rcases ih with hL | ⟨h1, h2⟩
        · exact Or.inl (.cons h hmS hL)
        · exact Or.inr ⟨.cons h hmS h1, h2⟩
      · have hk : m = k := by simpa using hmk
        subst hk
        rcases ih with hL | ⟨_, h2⟩
        · exact Or.inr ⟨.single h, hL⟩
        · exact Or.inr ⟨.single h, h2⟩

/-- A path among S extends along an edge out of a vertex of S. -/
theorem pathAmong_append_edge (A : List (List ℕ)) (S : List ℕ) (i b j : ℕ)
    (hp : PathAmong A S i b) (hb : b ∈ S) (he : edge A b j) : PathAmong A S i j := by
  induction hp with
  | single h => exact .cons h hb (.single he)
  | cons h hmem _ ih => exact .cons h hmem (ih hb he)

/-- Any reachability witness is a path among the full index range. -/
theorem reaches_to_pathAmong (A : List (List ℕ)) (hA : SquareMatrix A) (i j : ℕ)
    (h : Reaches A i j) : PathAmong A (List.range A.length) i j := by
  induction h with
  | single h => exact .single h
  | @tail b c _ hbc ih =>
      exact pathAmong_append_edge A _ i b c ih
        (List.mem_range.mpr (edge_lt A hA b c hbc).1) hbc

theorem pathAmong_to_reaches (A : List (List ℕ)) (S : List ℕ) (i j : ℕ)
    (hp : PathAmong A S i j) : Reaches A i j := by
  induction hp with
  | single h => exact Relation.TransGen.single h
  | cons h _ _ ih => exact Relation.TransGen.head h ih

/-- After the inner loop relaxes every column of a row, each visited cell is
bounded through the pivot. -/
theorem fwRow_bound (js : List ℕ) : ∀ (D : DistM) (k i j : ℕ), j ∈ js →
    (js.foldl (fun D j => fwUpdate D k i j) D) i j ≤ D i k + D k j := by
  induction js with
  | nil => intro D k i j h; simp at h
  | cons a as ih =>
      intro D k i j hmem
      rw [List.foldl_cons]
      rcases List.mem_cons.mp hmem with rfl | hmem2
      · have h1 : fwUpdate D k i j i j ≤ D i k + D k j := by
          unfold fwUpdate
          by_cases hc : D i k + D k j < D i j
          · rw [if_pos hc]
            simp
          · rw [if_neg hc]
            exact not_lt.mp hc
        exact (foldl_le_of_step_le _ (fun D x p q => fwUpdate_le D k i x p q) as
          (fwUpdate D k i j) i j).trans h1
      · exact (ih (fwUpdate D k i a) k i j hmem2).trans
          (add_le_add (fwUpdate_le D k i a i k) (fwUpdate_le D k i a k j))

/-- After a whole pass at pivot k, every in-range cell is bounded through
the pivot. -/
theorem fwPass_bound (is : List ℕ) : ∀ (D : DistM) (n k i j : ℕ), i ∈ is → j ∈ List.range n →
    (is.foldl (fun D i => fwRow D n k i) D) i j ≤ D i k + D k j := by
  induction is with
  | nil => intro D n k i j h _; simp at h
  | cons a as ih =>
      intro D n k i j hmem hj
      rw [List.foldl_cons]
      rcases List.mem_cons.mp hmem with rfl | hmem2
      · have h1 : fwRow D n k i i j ≤ D i k + D k j := fwRow_bound (List.range n) D k i j hj
        exact (foldl_le_of_step_le _ (fun D x p q => fwRow_le D n k x p q) as
          (fwRow D n k i) i j).trans h1
      · exact (ih (fwRow D n k a) n k i j hmem2 hj).trans
          (add_le_add (fwRow_le D n k a i k) (fwRow_le D n k a k j))

/-- Completeness of the pivot fold: if every path among S already has a
finite cell, then after folding the passes over ks every path among
S ++ ks has a finite cell. -/
theorem completeness_fold (A : List (List ℕ)) (hA : SquareMatrix A) :
    ∀ (ks : List ℕ) (S : List ℕ) (D : DistM),
      (∀ p q, PathAmong A S p q → D p q < ⊤) →
      ∀ i j, PathAmong A (S ++ ks) i j →
        (ks.foldl (fun D k => fwPass D A.length k) D) i j < ⊤ := by
  intro ks
  induction ks with
  | nil =>
      intro S D hD i j hp
      rw [List.append_nil] at hp
      exact hD i j hp
  | cons k ks ih =>
      intro S D hD i j hp
      rw [List.foldl_cons]
      refine ih (S ++ [k]) (fwPass D A.length k) ?_ i j ?_
      · intro p q hpq
        rcases pathAmong_append_singleton A S k p q hpq with hL | ⟨h1, h2⟩
        · exact lt_of_le_of_lt (fwPass_le D A.length k p q) (hD p q hL)
        · have hplt := (pathAmong_lt A hA S p k h1).1
          have hqlt := (pathAmong_lt A hA S k q h2).2
          have hb := fwPass_bound (List.range A.length) D A.length k p q
            (List.mem_range.mpr hplt) (List.mem_range.mpr hqlt)
          exact lt_of_le_of_lt hb (WithTop.add_lt_top.mpr ⟨hD p k h1, hD k q h2⟩)
      · rw [List.append_assoc, List.singleton_append]
        exact hp

theorem sound_init (A : List (List ℕ)) : Sound A (adjacencyToDistMatrix A) := by
  intro i j hij
  unfold adjacencyToDistMatrix at hij
  by_cases he : i = j
  · exact Or.inl he
  · rw [if_neg he] at hij
    right
    cases hme : matrixEntry A i j with
    | none => rw [hme] at hij; simp at hij
    | some v =>
        rw [hme] at hij
        by_cases hv : v = 0
        · simp [hv] at hij
        · refine Relation.TransGen.single ?_
          unfold edge
          rw [hme]
          simpa using hv

/-- The Floyd-Warshall characterisation: a cell of the relaxed distance
matrix is finite exactly on the diagonal and on reachable pairs. -/
theorem floydWarshall_lt_top_iff (A : List (List ℕ)) (hA : SquareMatrix A) (i j : ℕ) :
    floydWarshall A.length (adjacencyToDistMatrix A) i j < ⊤ ↔ i = j ∨ Reaches A i j := by
  constructor
  · exact fun h => sound_floydWarshall A A.length (adjacencyToDistMatrix A) (sound_init A) i j h
  · rintro (rfl | hreach)
    · refine lt_of_le_of_lt (floydWarshall_le A.length (adjacencyToDistMatrix A) i i) ?_
      simp only [adjacencyToDistMatrix, if_pos rfl]
      exact lt_top_iff_ne_top.mpr WithTop.one_ne_top
    · have hp := reaches_to_pathAmong A hA i j hreach
      have hD : ∀ p q, PathAmong A ([] : List ℕ) p q → adjacencyToDistMatrix A p q < ⊤ := by
        intro p q hpq
        have he : edge A p q := by
          cases hpq with
          | single h => exact h
          | cons h hmem _ => simp at hmem
        by_cases hpq2 : p = q
        · simp only [adjacencyToDistMatrix, hpq2, if_pos rfl]
          exact lt_top_iff_ne_top.mpr WithTop.one_ne_top
        · unfold edge at he
          cases hme : matrixEntry A p q with
          | none => rw [hme] at he; simp at he
          | some v =>
              rw [hme] at he
              simp only [Option.getD_some] at he
              simp [adjacencyToDistMatrix, hpq2, hme, he]
      have hfold := completeness_fold A hA (List.range A.length) [] (adjacencyToDistMatrix A)
        hD i j (by simpa using hp)
      exact hfold

/-- The first component of createVisibilityMatrix, written out. -/
theorem createVisibilityMatrix_fst (A : List (List ℕ)) :
    (createVisibilityMatrix A).1 = (List.range A.length).map (fun i =>
      (List.range A.length).map (fun j =>
        if floydWarshall A.length (adjacencyToDistMatrix A) i j < ⊤
        then (if j ≠ i then 1 else 0) else 0)) := rfl

/-- getD on a mapped range reduces to the mapped function. -/
theorem getD_map_range {β : Type} (n i : ℕ) (hi : i < n) (f : ℕ → β) (d : β) :
    ((List.range n).map f).getD i d = f i := by
  rw [List.getD_eq_getElem?_getD, List.getElem?_map, List.getElem?_range hi]
  rfl

/-- An in-range cell of the visibility matrix, written out. -/
theorem createVisibilityMatrix_cell (A : List (List ℕ)) (i j : ℕ)
    (hi : i < A.length) (hj : j < A.length) :
    ((createVisibilityMatrix A).1.getD i []).getD j 0
      = if floydWarshall A.length (adjacencyToDistMatrix A) i j < ⊤
        then (if j ≠ i then 1 else 0) else 0 := by
  rw [createVisibilityMatrix_fst, getD_map_range A.length i hi, getD_map_range A.length j hj]

/-- An in-range visibility cell holds 1 exactly on off-diagonal reachable
pairs, and otherwise holds 0. -/
theorem visibility_cell_iff (A : List (List ℕ)) (hA : SquareMatrix A) (i j : ℕ)
    (hi : i < A.length) (hj : j < A.length) :
    (((createVisibilityMatrix A).1.getD i []).getD j 0 = 1 ↔ i ≠ j ∧ Reaches A i j)
      ∧ (((createVisibilityMatrix A).1.getD i []).getD j 0 = 1
         ∨ ((createVisibilityMatrix A).1.getD i []).getD j 0 = 0) := by
  rw [createVisibilityMatrix_cell A i j hi hj]
  refine ⟨?_, by split <;> [skip; exact Or.inr rfl] <;> split <;> [exact Or.inl rfl; exact Or.inr rfl]⟩
  by_cases hfin : floydWarshall A.length (adjacencyToDistMatrix A) i j < ⊤
  · rw [if_pos hfin]
    have hchar := (floydWarshall_lt_top_iff A hA i j).mp hfin
    by_cases hij : j = i
    · subst hij
      simp
    · rw [if_pos hij]
      constructor
      · intro _
        refine ⟨fun h => hij h.symm, ?_⟩
        rcases hchar with heq | hr
        · exact absurd heq.symm hij
        · exact hr
      · intro _
        rfl
  · rw [if_neg hfin]
    constructor
    · intro h
      exact absurd h (by decide)
    · rintro ⟨hne, hr⟩
      exact absurd ((floydWarshall_lt_top_iff A hA i j).mpr (Or.inr hr)) hfin

theorem insertSorted_length {α : Type} (le : α → α → Bool) (x : α) (l : List α) :
    (insertSorted le x l).length = l.length + 1 := by
  induction l with
  | nil => rfl
  | cons y ys ih =>
      simp only [insertSorted]
      split
      · simp
      · simp [ih]

theorem insertionSort_length {α : Type} (le : α → α → Bool) (l : List α) :
    (insertionSort le l).length = l.length := by
  induction l with
  | nil => rfl
  | cons x xs ih =>
      simp only [insertionSort]
      rw [insertSorted_length, ih]
      rfl

/-- The adjacency matrix is square. -/
theorem createAdjacencyMatrix_square (reports : List ProjReport) :
    SquareMatrix (createAdjacencyMatrix reports) := by
  intro row hrow
  unfold createAdjacencyMatrix at hrow ⊢
  simp only [List.mem_map, List.mem_range] at hrow
  rcases hrow with ⟨x, _, rfl⟩
  simp

theorem createAdjacencyMatrix_length (reports : List ProjReport) :
    (createAdjacencyMatrix reports).length = reports.length := by
  simp [createAdjacencyMatrix]

/-- C1: in the project result of processResults with noCoreSize false, for
in-range indices i, j of the sorted reports, the visibility cell is 1 iff
i differs from j and a directed path of one or more edges joins i to j in
the adjacency-matrix graph; every other cell is 0. -/
theorem C1_visibility_iff_reachable (rs : List ProjReport) (i j : ℕ)
    (hi : i < rs.length) (hj : j < rs.length) :
    (((((processResults rs false).visibilityMatrix).getD []).getD i []).getD j 0 = 1
       ↔ i ≠ j ∧ Reaches ((processResults rs false).adjacencyMatrix) i j)
    ∧ ((((((processResults rs false).visibilityMatrix).getD []).getD i []).getD j 0 = 1)
       ∨ (((((processResults rs false).visibilityMatrix).getD []).getD i []).getD j 0 = 0)) := by
  have hvis : (processResults rs false).visibilityMatrix
      = some (createVisibilityMatrix (createAdjacencyMatrix (sortReports rs))).1 := rfl
  have hadj : (processResults rs false).adjacencyMatrix
      = createAdjacencyMatrix (sortReports rs) := rfl
  rw [hvis, hadj, Option.getD_some]
  have hlen : (createAdjacencyMatrix (sortReports rs)).length = rs.length := by
    rw [createAdjacencyMatrix_length]
    exact insertionSort_length _ rs
  exact visibility_cell_iff _ (createAdjacencyMatrix_square _) i j
    (by rw [hlen]; exact hi) (by rw [hlen]; exact hj)

/-- Instantiation of the C1 theorem on the concrete two-module project. -/
theorem C1_visibility_iff_reachable_witness :
    (0 < [scenarioModuleA, scenarioModuleB].length)
    ∧ (1 < [scenarioModuleA, scenarioModuleB].length)
    ∧ ((((((processResults [scenarioModuleA, scenarioModuleB] false).visibilityMatrix).getD []).getD 0 []).getD 1 0 = 1
         ↔ 0 ≠ 1 ∧ Reaches ((processResults [scenarioModuleA, scenarioModuleB] false).adjacencyMatrix) 0 1)
       ∧ ((((((processResults [scenarioModuleA, scenarioModuleB] false).visibilityMatrix).getD []).getD 0 []).getD 1 0 = 1)
          ∨ (((((processResults [scenarioModuleA, scenarioModuleB] false).visibilityMatrix).getD []).getD 0 []).getD 1 0 = 0))) :=
  ⟨by simp, by simp,
   C1_visibility_iff_reachable [scenarioModuleA, scenarioModuleB] 0 1 (by simp) (by simp)⟩

end Escomplex
